import Mathlib

/-!
Shallow embedding of the colony status derivation engine of
`src/scripts/esi_query.py` (functions `parse_utc_timestamp`,
`resolve_pi_product_name`, `estimate_storage_fill_pct`, `parse_pi_status`
and the two static tables).

Modelling conventions, used consistently below:

* Python run-time values are modelled by the inductive type `PyVal`.
  Python `float` payloads are modelled as fixed-point integers counting
  millionths ("micro-units"): `PyVal.vFloat m` stands for the float
  `m / 1e6`.  This represents every value appearing in the development
  exactly; binary-float rounding error of CPython is not modelled, so
  statements about arithmetic hold for inputs whose float computations
  are exact (all witnesses below are of this kind).
* Instants (`datetime` values) are integers counting microseconds since
  the Unix epoch, the resolution of `datetime`.
* `round(x, 2)` values (`hours_remaining`, storage fill percent) are
  stored as integer hundredths: field value `c` stands for the Python
  float `c / 100`.  CPython `round` is round-half-even on the binary
  float; we implement exact round-half-even on rationals `a / b` via
  integer arithmetic (`roundHalfEvenDiv`), which agrees with CPython
  away from representation-error boundaries.
* The ambient interpreter state that the Python code reads implicitly is
  made explicit in a value of type `Env`: `Env.nowMicro` is the instant
  returned by `datetime.now(timezone.utc)` at line 313, and
  `Env.tzOffMicro` is the UTC offset of the process-local timezone,
  which `datetime.astimezone` applies to offset-naive timestamps.
* Fallible Python evaluation is modelled in `Except PyErr`; the engine
  can raise `TypeError` (unhashable `dict` key, iteration over a
  non-iterable), `AttributeError` (`.replace` on a truthy non-string
  expiry) and `OverflowError` (`astimezone` leaving the representable
  `datetime` range); all other exception sources are guarded in the
  source by `isinstance` checks or `try`.
-/

/-- A Python run-time value, as far as the engine inspects one. -/
inductive PyVal where
  | vNone
  | vBool (b : Bool)
  | vInt (n : Int)
  | vFloat (microUnits : Int)
  | vStr (s : String)
  | vList (xs : List PyVal)
  | vDict (kvs : List (PyVal × PyVal))

/-- Exceptions the engine can actually raise (see the header comment). -/
inductive PyErr where
  | typeError
  | attributeError
  | overflowError
deriving DecidableEq

/-- Python truthiness (`bool(v)`), for the values of `PyVal`. -/
def truthy : PyVal → Bool
  | .vNone => false
  | .vBool b => b
  | .vInt n => n != 0
  | .vFloat m => m != 0
  | .vStr s => s ≠ ""
  | .vList xs => !xs.isEmpty
  | .vDict kvs => !kvs.isEmpty

/-- Python `isinstance(v, int)` together with the integer value: Python `bool`
is a subclass of `int`, so `True`/`False` count as `1`/`0`. -/
def pyToInt : PyVal → Option Int
  | .vInt n => some n
  | .vBool b => some (if b then 1 else 0)
  | _ => none

/-- Python `isinstance(v, (int, float))` together with the numeric value in
micro-units (`float(v) * 1e6`). -/
def numMicro : PyVal → Option Int
  | .vInt n => some (n * 1000000)
  | .vBool b => some (if b then 1000000 else 0)
  | .vFloat m => some m
  | _ => none

/-- Keys Python can hash: `list` and `dict` raise `TypeError` when used
as a `dict` key. -/
def hashable : PyVal → Bool
  | .vList _ => false
  | .vDict _ => false
  | _ => true

/-- Python `d.get(key, dflt)` for a string `key` on the entry list of a `dict`
value.  A string key can only match `str` keys of the dict (numeric
cross-type equality never equates a `str` with a number).  Entry lists
of real Python dicts have no duplicate keys; on duplicates we take the
first match. -/
def dGet (kvs : List (PyVal × PyVal)) (key : String) (dflt : PyVal) : PyVal :=
  match kvs.find? (fun kv => match kv.1 with | .vStr s => s = key | _ => false) with
  | some kv => kv.2
  | none => dflt

/-- Python `key in d` for a string `key` on the entry list of a `dict` value. -/
def hasKey (kvs : List (PyVal × PyVal)) (key : String) : Bool :=
  kvs.any (fun kv => match kv.1 with | .vStr s => s = key | _ => false)

/-- Python `for x in v`: lists iterate their elements, strings their characters
(as one-character strings), dicts their keys; every other value raises
`TypeError`. -/
def pyIter : PyVal → Except PyErr (List PyVal)
  | .vList xs => .ok xs
  | .vStr s => .ok (s.data.map (fun c => PyVal.vStr (String.mk [ c ])))
  | .vDict kvs => .ok (kvs.map (fun kv => kv.1))
  | _ => .error .typeError

/-- Python `s.replace(pat, rep)` for the one-character pattern used by the
source (`"Z"`): every occurrence of the character is replaced. -/
def replaceChar (pat : Char) (rep : List Char) : List Char → List Char
  | [] => []
  | c :: rest =>
      if c = pat then rep ++ replaceChar pat rep rest
      else c :: replaceChar pat rep rest

/-- Round-half-even of the rational `a / b` (for `b > 0`), the rounding
CPython's `round` applies; implemented with integer floor division. -/
def roundHalfEvenDiv (a b : Int) : Int :=
  let q := Int.fdiv a b
  let r := a - q * b
  if 2 * r < b then q
  else if 2 * r > b then q + 1
  else if q % 2 = 0 then q else q + 1

/-- Decimal digits of `n` (`n < 10 ^ w`) padded to width `w`, by the
`toString (10 ^ w + n)` trick. -/
def padDigits (w : Nat) (n : Nat) : String :=
  (toString (10 ^ w + n)).drop 1

/-- Drop trailing zeros of a digit string, keeping at least one digit
(Python float `str` prints `6.0`, `5.25`, `5.3`). -/
def trimZeros (s : String) : String :=
  let kept := (s.data.reverse.dropWhile (fun c => c = '0')).reverse
  if kept.isEmpty then "0" else String.mk kept

/-- Python `str` of a float stored as integer hundredths (the
`round(x, 2)` results interpolated into attention messages). -/
def floatStrCenti (c : Int) : String :=
  let sign := if c < 0 then "-" else ""
  let n := c.natAbs
  sign ++ toString (n / 100) ++ "." ++ trimZeros (padDigits 2 (n % 100))

/-- Python `str` of a float stored as integer micro-units.  Matches
CPython `repr` for floats with at most six decimal places; CPython's
shortest-roundtrip repr of other floats is not modelled (no statement
below depends on it). -/
def floatStrMicro (m : Int) : String :=
  let sign := if m < 0 then "-" else ""
  let n := m.natAbs
  sign ++ toString (n / 1000000) ++ "." ++ trimZeros (padDigits 6 (n % 1000000))

/-- Python `repr(v)`.  The recursion goes through nested lists, so it is
defined by well-founded recursion on `sizeOf`.  String escaping inside
`repr` of a string is not modelled. -/
def pyRepr : PyVal → String
  | .vNone => "None"
  | .vBool b => if b then "True" else "False"
  | .vInt n => toString n
  | .vFloat m => floatStrMicro m
  | .vStr s => "'" ++ s ++ "'"
  | .vList xs =>
      "[" ++ String.intercalate ", " (xs.attach.map (fun y => pyRepr y.1)) ++ "]"
  | .vDict kvs =>
      "\x7b" ++
        String.intercalate ", "
          (kvs.attach.map (fun y => pyRepr y.1.1 ++ ": " ++ pyRepr y.1.2)) ++
        "\x7d"
termination_by v => sizeOf v
decreasing_by
  · have h := List.sizeOf_lt_of_mem y.2
    simp only [PyVal.vList.sizeOf_spec]
    omega
  · have h := List.sizeOf_lt_of_mem y.2
    have h2 : sizeOf y.1.1 < sizeOf y.1 := by
      obtain ⟨⟨a, b⟩, hy⟩ := y
      simp only [Prod.mk.sizeOf_spec]
      omega
    simp only [PyVal.vDict.sizeOf_spec]
    omega
  · have h := List.sizeOf_lt_of_mem y.2
    have h2 : sizeOf y.1.2 < sizeOf y.1 := by
      obtain ⟨⟨a, b⟩, hy⟩ := y
      simp only [Prod.mk.sizeOf_spec]
      omega
    simp only [PyVal.vDict.sizeOf_spec]
    omega

/-- Python `str(v)`: like `repr(v)` except that a top-level string prints
unquoted (this is what f-string interpolation applies).  The atom cases
are spelled out so that they reduce definitionally. -/
def pyStr : PyVal → String
  | .vNone => "None"
  | .vBool b => if b then "True" else "False"
  | .vInt n => toString n
  | .vFloat m => floatStrMicro m
  | .vStr s => s
  | .vList xs => pyRepr (.vList xs)
  | .vDict kvs => pyRepr (.vDict kvs)

/-- Accumulator worker for `dedupFirst`: keep an element when it has
not been seen yet. -/
def dedupFirstAux {α : Type} [DecidableEq α] (seen : List α) : List α → List α
  | [] => []
  | x :: xs =>
      if x ∈ seen then dedupFirstAux seen xs
      else x :: dedupFirstAux (x :: seen) xs

/-- Python `list(dict.fromkeys(l))`: de-duplicate keeping the first occurrence
of each element, in order. -/
def dedupFirst {α : Type} [DecidableEq α] (l : List α) : List α :=
  dedupFirstAux [] l

/-- Python `sorted(set(l))` for integers: distinct elements in ascending
order. -/
def sortedDedup (l : List Int) : List Int :=
  List.insertionSort (· ≤ ·) (dedupFirst l)

/-! ## Calendar arithmetic and the `datetime.fromisoformat` model

The source parses timestamps with `datetime.fromisoformat` after
substituting `Z` by `+00:00`, then converts to UTC via `astimezone`.
We model the accepted grammar of CPython (the version range the script
targets): `YYYY-MM-DD`, optionally followed by one arbitrary separator
character and `HH[:MM[:SS[.fff or .ffffff]]]`, optionally followed by
an offset `+HH:MM[:SS[.ffffff]]` or `-HH:MM[:SS[.ffffff]]`.  Component
range violations raise `ValueError` inside `fromisoformat`, which the
source catches and turns into `None`. -/

/-- Gregorian leap-year test. -/
def isLeap (y : Int) : Bool :=
  y % 4 = 0 && (y % 100 ≠ 0 || y % 400 = 0)

/-- Days in a month of the proleptic Gregorian calendar. -/
def daysInMonth (y m : Int) : Int :=
  if m = 2 then (if isLeap y then 29 else 28)
  else if m = 4 ∨ m = 6 ∨ m = 9 ∨ m = 11 then 30
  else 31

/-- Days from the Unix epoch (1970-01-01) to the civil date `y-m-d`,
the standard days-from-civil algorithm on floor division. -/
def daysFromCivil (y m d : Int) : Int :=
  let y2 := if m ≤ 2 then y - 1 else y
  let era := Int.fdiv y2 400
  let yoe := y2 - era * 400
  let mp := Int.fmod (m + 9) 12
  let doy := Int.fdiv (153 * mp + 2) 5 + d - 1
  let doe := yoe * 365 + Int.fdiv yoe 4 - Int.fdiv yoe 100 + doy
  era * 146097 + doe - 719468

/-- Valid `datetime.date` components (`MINYEAR = 1`, `MAXYEAR = 9999`). -/
def validDate (y m d : Int) : Bool :=
  1 ≤ y && y ≤ 9999 && 1 ≤ m && m ≤ 12 && 1 ≤ d && d ≤ daysInMonth y m

/-- Smallest representable `datetime` instant (0001-01-01T00:00:00
UTC), in microseconds since the epoch. -/
def minDatetimeMicro : Int := daysFromCivil 1 1 1 * 86400000000

/-- Largest representable `datetime` instant
(9999-12-31T23:59:59.999999 UTC), in microseconds since the epoch. -/
def maxDatetimeMicro : Int := daysFromCivil 9999 12 31 * 86400000000 + 86399999999

/-- Decimal value of a digit character, if it is one. -/
def digitVal (c : Char) : Option Nat :=
  if '0' ≤ c ∧ c ≤ '9' then some (c.toNat - 48) else none

/-- Parse exactly two digits. -/
def digit2 : List Char → Option (Nat × List Char)
  | c1 :: c2 :: rest =>
      match digitVal c1, digitVal c2 with
      | some a, some b => some (10 * a + b, rest)
      | _, _ => none
  | _ => none

/-- Parse exactly four digits. -/
def digit4 : List Char → Option (Nat × List Char)
  | c1 :: c2 :: c3 :: c4 :: rest =>
      match digitVal c1, digitVal c2, digitVal c3, digitVal c4 with
      | some a, some b, some c, some d =>
          some (1000 * a + 100 * b + 10 * c + d, rest)
      | _, _, _, _ => none
  | _ => none

/-- Parse the date part `YYYY-MM-DD`. -/
def parseDateChars (cs : List Char) : Option (Int × Int × Int × List Char) :=
  match digit4 cs with
  | some (y, '-' :: rest1) =>
      match digit2 rest1 with
      | some (mo, '-' :: rest2) =>
          match digit2 rest2 with
          | some (d, rest3) => some ((y : Int), (mo : Int), (d : Int), rest3)
          | none => none
      | _ => none
  | _ => none

/-- Collect a leading run of digits into its digit list. -/
def spanDigits : List Char → List Nat × List Char
  | [] => ([], [])
  | c :: rest =>
      match digitVal c with
      | some d =>
          let (ds, r) := spanDigits rest
          (d :: ds, r)
      | none => ([], c :: rest)

/-- Numeric value of a digit list. -/
def digitsVal (ds : List Nat) : Nat :=
  ds.foldl (fun a d => 10 * a + d) 0

/-- Parse the fractional-second part: a dot followed by exactly three
or exactly six digits, yielding microseconds. -/
def parseFrac : List Char → Option (Nat × List Char)
  | '.' :: rest =>
      let (ds, r) := spanDigits rest
      if ds.length = 3 then some (digitsVal ds * 1000, r)
      else if ds.length = 6 then some (digitsVal ds, r)
      else none
  | cs => some (0, cs)

/-- Parse a time-of-day `HH[:MM[:SS[.frac]]]`, yielding hour, minute,
second, microsecond and the rest of the input. -/
def parseTimeChars (cs : List Char) : Option (Nat × Nat × Nat × Nat × List Char) :=
  match digit2 cs with
  | some (h, ':' :: rest1) =>
      match digit2 rest1 with
      | some (mi, ':' :: rest2) =>
          match digit2 rest2 with
          | some (se, rest3) =>
              match parseFrac rest3 with
              | some (mu, rest4) => some (h, mi, se, mu, rest4)
              | none => none
          | none => none
      | some (mi, rest2) => some (h, mi, 0, 0, rest2)
      | none => none
  | some (h, rest1) => some (h, 0, 0, 0, rest1)
  | none => none

/-- Valid `datetime.time` components. -/
def validTime (h mi se : Nat) : Bool :=
  h ≤ 23 && mi ≤ 59 && se ≤ 59

/-- Parse the magnitude of a UTC offset, one of the exact shapes
`HH:MM`, `HH:MM:SS` or `HH:MM:SS.ffffff` consuming the whole input,
in microseconds.  Unlike the time of day, the components are not
range-checked: CPython's parser feeds them to `timedelta`, so an
offset like `+00:99` is valid. -/
def parseTzMag (cs : List Char) : Option Int :=
  match digit2 cs with
  | some (h, ':' :: rest1) =>
      match digit2 rest1 with
      | some (mi, []) => some (((h * 3600 + mi * 60) * 1000000 : Nat) : Int)
      | some (mi, ':' :: rest2) =>
          match digit2 rest2 with
          | some (se, []) => some (((h * 3600 + mi * 60 + se) * 1000000 : Nat) : Int)
          | some (se, '.' :: rest3) =>
              match spanDigits rest3 with
              | (ds, []) =>
                  if ds.length = 6 then
                    some (((h * 3600 + mi * 60 + se) * 1000000 + digitsVal ds : Nat) : Int)
                  else none
              | _ => none
          | _ => none
      | _ => none
  | _ => none

/-- Parse the trailing UTC offset: nothing, or a sign followed by an
offset magnitude.  `timezone` accepts any magnitude strictly below 24
hours (raising `ValueError`, hence a parse failure, otherwise); the
individual components are not bounded. -/
def parseTz (cs : List Char) : Option (Option Int) :=
  match cs with
  | [] => some none
  | sign :: rest =>
      if sign = '+' ∨ sign = '-' then
        match parseTzMag rest with
        | some mag =>
            if mag < 86400000000 then some (some (if sign = '-' then -mag else mag))
            else none
        | none => none
      else none

/-- Model of `datetime.fromisoformat` on the characters of the input string:
microseconds since the epoch of the parsed (possibly offset-naive)
wall-clock value, together with the parsed UTC offset when one is
present.  `none` models `ValueError`. -/
def fromisoformatMicro (s : String) : Option (Int × Option Int) :=
  match parseDateChars s.data with
  | none => none
  | some (y, mo, d, rest) =>
      if validDate y mo d then
        let dateMicro := daysFromCivil y mo d * 86400000000
        match rest with
        | [] => some (dateMicro, none)
        | _ :: timecs =>
            match parseTimeChars timecs with
            | none => none
            | some (h, mi, se, mu, rest2) =>
                if validTime h mi se then
                  match parseTz rest2 with
                  | none => none
                  | some off =>
                      some (dateMicro + ((h * 3600 + mi * 60 + se) * 1000000 + mu : Nat), off)
                else none
      else none

/-- Ambient interpreter state the Python engine reads implicitly:
the UTC instant `datetime.now(timezone.utc)` returns, and the local
UTC offset `astimezone` applies to offset-naive values (both in
microseconds). -/
structure Env where
  nowMicro : Int
  tzOffMicro : Int

/-- Embedding of `parse_utc_timestamp` (src/scripts/esi_query.py lines 82-90):
falsy input returns `None`; a string has every `Z` replaced by
`+00:00`, is parsed by `fromisoformat` (`ValueError` becomes `None`)
and converted to UTC by `astimezone` (raising `OverflowError` outside
the representable range); a truthy non-string raises `AttributeError`
at `.replace`. -/
def parse_utc_timestamp (env : Env) (value : PyVal) : Except PyErr (Option Int) :=
  if truthy value then
    match value with
    | .vStr s =>
        let fixed := String.mk (replaceChar 'Z' ("+00:00".data) s.data)
        match fromisoformatMicro fixed with
        | none => .ok none
        | some (naive, offOpt) =>
            let off := offOpt.getD env.tzOffMicro
            let utc := naive - off
            if utc < minDatetimeMicro ∨ maxDatetimeMicro < utc then .error .overflowError
            else .ok (some utc)
    | _ => .error .attributeError
  else .ok none

/-! ## Static tables and lookups -/

/-- Table `PI_PRODUCTS` (src/scripts/esi_query.py lines 34-64). -/
def PI_PRODUCTS : List (Int × String) :=
  [ (2393, "Aqueous Liquids"), (2396, "Base Metals"), (2397, "Carbon Compounds")
  , (2398, "Complex Organisms"), (2401, "Heavy Metals")
  , (2389, "Bacteria"), (2390, "Biofuels"), (2399, "Industrial Fibers")
  , (3779, "Biomass"), (2400, "Precious Metals"), (2317, "Water"), (9828, "Silicon")
  , (44, "Enriched Uranium"), (3689, "Mechanical Parts"), (9836, "Consumer Electronics")
  , (9832, "Construction Blocks"), (3683, "Coolant"), (2867, "Broadcast Node")
  , (2868, "Camera Drones"), (2869, "Synthetic Synapses"), (2870, "Gel-Matrix Biopaste")
  , (2871, "Hazmat Detection Systems"), (2872, "Integrity Response Drones")
  , (2873, "Organic Mortar Applicators"), (2874, "Nano-Factory")
  , (2875, "Sterile Conduits") ]

/-- Table `PI_STORAGE_CAPACITY_UNITS` (src/scripts/esi_query.py lines 68-72). -/
def PI_STORAGE_CAPACITY_UNITS : List (Int × Int) :=
  [ (2524, 10000), (2544, 10000), (2256, 12000) ]

/-- Association-list lookup over an integer-keyed static table. -/
def lookupIntTable {α : Type} (table : List (Int × α)) (k : Int) : Option α :=
  (table.find? (fun e => e.1 = k)).map (fun e => e.2)

/-- The integer a value hashes and compares equal to as a `dict` key of
the integer-keyed static tables: Python `hash`/`==` identify `2524`,
`2524.0` and (for `0`/`1`) `False`/`True`. -/
def tableKey : PyVal → Option Int
  | .vInt n => some n
  | .vBool b => some (if b then 1 else 0)
  | .vFloat m => if m % 1000000 = 0 then some (m / 1000000) else none
  | _ => none

/-- Lookup `PI_STORAGE_CAPACITY_UNITS.get(v)`: raises `TypeError` on an
unhashable key, otherwise the capacity when the key equals a table
key. -/
def capacityGet (v : PyVal) : Except PyErr (Option Int) :=
  if hashable v then
    .ok (match tableKey v with
         | some k => lookupIntTable PI_STORAGE_CAPACITY_UNITS k
         | none => none)
  else .error .typeError

/-- Embedding of `resolve_pi_product_name` (src/scripts/esi_query.py lines 93-97):
`None` maps to `"unknown"`, otherwise `PI_PRODUCTS.get(type_id,
f"type_id:..")` — which raises `TypeError` on an unhashable key. -/
def resolve_pi_product_name (tid : PyVal) : Except PyErr String :=
  match tid with
  | .vNone => .ok "unknown"
  | _ =>
      if hashable tid then
        .ok (match tableKey tid with
             | some k =>
                 match lookupIntTable PI_PRODUCTS k with
                 | some name => name
                 | none => "type_id:" ++ pyStr tid
             | none => "type_id:" ++ pyStr tid)
      else .error .typeError

/-- Numeric value of an `int`-or-`bool` value (the only shapes stored
by the route aggregation); `numOf (vBool true) = 1` reflects `True ==
1` in Python. -/
def numOf (v : PyVal) : Int :=
  match pyToInt v with
  | some n => n
  | none => 0

/-- Whether a value is a proper `int` (not a `bool`). -/
def isVInt : PyVal → Bool
  | .vInt _ => true
  | _ => false

/-- Specialization of `resolve_pi_product_name` to the `int`/`bool`
arguments the factory loop feeds it: the table lookup unifies
`True`/`False` with `1`/`0` (Python hash equality), while the fallback
f-string prints the original value (`type_id:True` versus
`type_id:1`). -/
def piProductNameVal (v : PyVal) : String :=
  match lookupIntTable PI_PRODUCTS (numOf v) with
  | some s => s
  | none => "type_id:" ++ pyStr v

/-! ## Storage fill estimation (`estimate_storage_fill_pct`) -/

/-- Contribution of one content entry to `total_amount`, in
micro-units: entries that are not dicts, or whose `amount` is not an
`int`/`float`, contribute zero (lines 287-292). -/
def entryAmountMicro (item : PyVal) : Int :=
  match item with
  | .vDict ikv =>
      match numMicro (dGet ikv "amount" .vNone) with
      | some a => a
      | none => 0
  | _ => 0

/-- The `total_amount` accumulation loop over the content entries, in
micro-units. -/
def sumAmountsMicro (items : List PyVal) : Int :=
  items.foldl (fun t it => t + entryAmountMicro it) 0

/-- Loop body of `estimate_storage_fill_pct` for one pin: `none` when
the pin is skipped (non-dict, unknown or falsy capacity, or a truthy
non-list `contents`), otherwise the fill percent in hundredths
(`min(100.0, round(total / capacity * 100.0, 2))`). -/
def pinFill (pin : PyVal) : Except PyErr (Option Int) :=
  match pin with
  | .vDict kvs =>
      match capacityGet (dGet kvs "type_id" .vNone) with
      | .error e => .error e
      | .ok (some c) =>
          if c = 0 then .ok none
          else
            match (if truthy (dGet kvs "contents" .vNone) then
                     dGet kvs "contents" .vNone
                   else .vList []) with
            | .vList items =>
                .ok (some (min 10000 (roundHalfEvenDiv (sumAmountsMicro items) (c * 100))))
            | _ => .ok none
      | .ok none => .ok none
  | _ => .ok none

/-- The `max_fill` update (lines 294-295): `if max_fill is None or
fill > max_fill: max_fill = fill`. -/
def accMax (fill : Int) : Option Int → Option Int
  | none => some fill
  | some m => some (if fill > m then fill else m)

/-- The `max_fill` folding loop of `estimate_storage_fill_pct`. -/
def storageFold : List PyVal → Option Int → Except PyErr (Option Int)
  | [], acc => .ok acc
  | pin :: rest, acc =>
      match pinFill pin with
      | .error e => .error e
      | .ok (some fill) => storageFold rest (accMax fill acc)
      | .ok none => storageFold rest acc

/-- Embedding of `estimate_storage_fill_pct` (src/scripts/esi_query.py lines
273-296), taking the already-materialised iteration of its `pins`
argument; the result is the maximal fill percent in hundredths, or
`none` for Python `None`. -/
def estimate_storage_fill_pct (pins : List PyVal) : Except PyErr (Option Int) :=
  storageFold pins none

/-! ## The engine (`parse_pi_status`) -/

/-- One entry of a status record's `extractors` list (lines 344-350).
`hours_remaining` is in hundredths of an hour (see the header). -/
structure ExtractorEntry where
  product : String
  product_type_id : PyVal
  expiry : PyVal
  hours_remaining : Option Int
  status : String

/-- One entry of a status record's `factories` list (lines 382-386). -/
structure FactoryEntry where
  input : String
  output : String
  schematic : String

/-- One per-planet status record (lines 393-404).  `storage_fill_pct`
is in hundredths of a percent (see the header). -/
structure PlanetRecord where
  planet_id : PyVal
  planet_name : PyVal
  planet_type : PyVal
  solar_system_id : PyVal
  character : PyVal
  extractors : List ExtractorEntry
  storage_fill_pct : Option Int
  factories : List FactoryEntry
  needs_attention : Bool
  action_required : String

/-- Body of the extractor loop (lines 328-355) for one pin: `none`
when the pin carries no extraction descriptor, otherwise the produced
extractor entry and the attention reason it contributes, if any. -/
def classifyPin (env : Env) (pin : PyVal) :
    Except PyErr (Option (ExtractorEntry × Option String)) :=
  match pin with
  | .vDict pkv =>
      match dGet pkv "extractor_details" .vNone with
      | .vDict ekv =>
          match parse_utc_timestamp env (dGet pkv "expiry_time" .vNone) with
          | .error e => .error e
          | .ok expiryDt =>
              match resolve_pi_product_name (dGet ekv "product_type_id" .vNone) with
              | .error e => .error e
              | .ok pname =>
                  let hr : Option Int :=
                    expiryDt.map (fun t => roundHalfEvenDiv (t - env.nowMicro) 36000000)
                  let status := match hr with
                    | some h => if h > 0 then "running" else "expired"
                    | none => "idle"
                  let entry : ExtractorEntry :=
                    { product := pname
                    , product_type_id := dGet ekv "product_type_id" .vNone
                    , expiry := dGet pkv "expiry_time" .vNone
                    , hours_remaining := hr, status := status }
                  let reason : Option String :=
                    if status = "expired" then some "Extractor already expired"
                    else match hr with
                      | some h =>
                          if h ≤ 600 then
                            some ("Extractor expires in " ++ floatStrCenti h ++ "h")
                          else none
                      | none => none
                  .ok (some (entry, reason))
      | _ => .ok none
  | _ => .ok none

/-- The extractor loop over all pins, collecting the `extractors`
entries and the extractor attention reasons, each in pin order. -/
def extractorLoop (env : Env) : List PyVal → Except PyErr (List ExtractorEntry × List String)
  | [] => .ok ([], [])
  | pin :: rest =>
      match classifyPin env pin with
      | .error e => .error e
      | .ok head =>
          match extractorLoop env rest with
          | .error e => .error e
          | .ok tail =>
              match head with
              | some (e, some r) => .ok (e :: tail.1, r :: tail.2)
              | some (e, none) => .ok (e :: tail.1, tail.2)
              | none => .ok tail

/-- The pair a route contributes to the outgoing aggregation (lines
362-366): source pin and content type, when both satisfy
`isinstance(…, int)`.  The dict *key* is the collapsed numeric value
(Python dict keys unify `True` with `1`), but the appended content
value keeps its identity — Python's set retention and f-string
rendering distinguish `True` from `1`. -/
def routeOut (r : PyVal) : Option (Int × PyVal) :=
  match r with
  | .vDict rkv =>
      match pyToInt (dGet rkv "source_pin_id" .vNone),
            pyToInt (dGet rkv "content_type_id" .vNone) with
      | some p, some _ => some (p, dGet rkv "content_type_id" .vNone)
      | _, _ => none
  | _ => none

/-- The pair a route contributes to the incoming aggregation (lines
363-368): destination pin and content type, when both satisfy
`isinstance(…, int)` (key collapsed, value kept, as for `routeOut`). -/
def routeIn (r : PyVal) : Option (Int × PyVal) :=
  match r with
  | .vDict rkv =>
      match pyToInt (dGet rkv "destination_pin_id" .vNone),
            pyToInt (dGet rkv "content_type_id" .vNone) with
      | some p, some _ => some (p, dGet rkv "content_type_id" .vNone)
      | _, _ => none
  | _ => none

/-- All (source pin, content type) contributions of the route list, in
route order.  The Python code stores these in a dict of lists
(`outgoing_by_pin`); the list stored under a pin `p` is exactly
`pairsFor (outPairs routes) p`, which is how the dict is read. -/
def outPairs (routes : List PyVal) : List (Int × PyVal) :=
  routes.filterMap routeOut

/-- All (destination pin, content type) contributions of the route
list, in route order (`incoming_by_pin`, read via `pairsFor`). -/
def inPairs (routes : List PyVal) : List (Int × PyVal) :=
  routes.filterMap routeIn

/-- Python `d.get(p, [])` on the aggregation dicts: the content types recorded
under pin `p`, in insertion order. -/
def pairsFor (pairs : List (Int × PyVal)) (p : Int) : List PyVal :=
  (pairs.filter (fun pr => pr.1 = p)).map (fun pr => pr.2)

/-- Python `sorted(set(l))` for a list of `int`/`bool` values: the set
keeps the first-inserted representative of each class of hash-equal
values (`True == 1`), and sorting compares numerically (worker
`dedupByNumAux` below, then an insertion sort on `numOf`). -/
def dedupByNumAux (seen : List Int) : List PyVal → List PyVal
  | [] => []
  | v :: vs =>
      if numOf v ∈ seen then dedupByNumAux seen vs
      else v :: dedupByNumAux (numOf v :: seen) vs

/-- See `dedupByNumAux`: Python `sorted(set(l))` on `int`/`bool`
values. -/
def sortedSetVals (l : List PyVal) : List PyVal :=
  List.insertionSort (fun a b => numOf a ≤ numOf b) (dedupByNumAux [] l)

instance : IsTotal PyVal (fun a b => numOf a ≤ numOf b) :=
  ⟨fun a b => Int.le_total (numOf a) (numOf b)⟩

instance : IsTrans PyVal (fun a b => numOf a ≤ numOf b) :=
  ⟨fun _ _ _ hab hbc => le_trans hab hbc⟩

/-- The factory record built for a factory pin with integer id `p`
(lines 379-386). -/
def factoryEntryOf (inP outP : List (Int × PyVal)) (pkv : List (PyVal × PyVal)) (p : Int) :
    FactoryEntry :=
  let inputs := sortedSetVals (pairsFor inP p)
  let outputs := sortedSetVals (pairsFor outP p)
  let schematic := dGet pkv "schematic_id" .vNone
  { input :=
      if inputs.isEmpty then "unknown"
      else String.intercalate ", " (inputs.map piProductNameVal)
  , output :=
      if outputs.isEmpty then "unknown"
      else String.intercalate ", " (outputs.map piProductNameVal)
  , schematic :=
      match schematic with
      | .vNone => "unknown"
      | v => "Schematic " ++ pyStr v }

/-- The factory loop (lines 370-386): pins that carry a
`factory_details` or `schematic_id` key and an integer `pin_id`. -/
def factoryLoop (inP outP : List (Int × PyVal)) : List PyVal → List FactoryEntry
  | [] => []
  | pin :: rest =>
      match pin with
      | .vDict pkv =>
          if hasKey pkv "factory_details" || hasKey pkv "schematic_id" then
            match pyToInt (dGet pkv "pin_id" .vNone) with
            | some p => factoryEntryOf inP outP pkv p :: factoryLoop inP outP rest
            | none => factoryLoop inP outP rest
          else factoryLoop inP outP rest
      | _ => factoryLoop inP outP rest

/-- The storage attention message (lines 389-390): appended exactly
when a fill percent exists and is at least 80 (8000 hundredths). -/
def storageReason (fill : Option Int) : List String :=
  match fill with
  | some f =>
      if f ≥ 8000 then [ "Storage/Launchpad at " ++ floatStrCenti f ++ "%" ]
      else []
  | none => []

/-- Lookup in the details map; last binding wins, as for repeated
assignment to the same Python dict key. -/
def lookupStr (l : List (String × PyVal)) (key : String) : Option PyVal :=
  l.foldl (fun acc kv => if kv.1 = key then some kv.2 else acc) none

/-- Python `details_map.get(str(planet_id), {})` (line 321). -/
def detailFor (dm : List (String × PyVal)) (planetId : PyVal) : PyVal :=
  match lookupStr dm (pyStr planetId) with
  | some d => d
  | none => .vDict []

/-- Entry list of a `dict` value (all details-map values are dicts by
construction, as is the `{}` default). -/
def dictEntries : PyVal → List (PyVal × PyVal)
  | .vDict kvs => kvs
  | _ => []

/-- The colony's raw `pins` value (line 322): `detail.get("pins", [])`
guarded by the `isinstance(detail, dict)` check. -/
def pinsOf (dm : List (String × PyVal)) (pkv : List (PyVal × PyVal)) : PyVal :=
  match detailFor dm (dGet pkv "planet_id" .vNone) with
  | .vDict dkv => dGet dkv "pins" (.vList [])
  | _ => .vList []

/-- The colony's raw `routes` value (line 323). -/
def routesOf (dm : List (String × PyVal)) (pkv : List (PyVal × PyVal)) : PyVal :=
  match detailFor dm (dGet pkv "planet_id" .vNone) with
  | .vDict dkv => dGet dkv "routes" (.vList [])
  | _ => .vList []

/-- Lines 320-390 for one planet dict: the extractor entries, factory
entries, storage fill, and the attention reasons in encounter order —
one per flagged extractor in pin order, then the storage message if
triggered. -/
def colonyCore (env : Env) (dm : List (String × PyVal)) (pkv : List (PyVal × PyVal)) :
    Except PyErr (List ExtractorEntry × List FactoryEntry × Option Int × List String) :=
  match pyIter (pinsOf dm pkv) with
  | .error e => .error e
  | .ok pinList =>
      match extractorLoop env pinList with
      | .error e => .error e
      | .ok extras =>
          match pyIter (routesOf dm pkv) with
          | .error e => .error e
          | .ok routeList =>
              let factories := factoryLoop (inPairs routeList) (outPairs routeList) pinList
              match estimate_storage_fill_pct pinList with
              | .error e => .error e
              | .ok fill =>
                  .ok (extras.1, factories, fill, extras.2 ++ storageReason fill)

/-- Lines 320-404 for one planet dict: assemble the status record,
de-duplicating the attention reasons with first occurrences kept
(`list(dict.fromkeys(...))`). -/
def processPlanetDict (env : Env) (dm : List (String × PyVal)) (pkv : List (PyVal × PyVal)) :
    Except PyErr PlanetRecord :=
  match colonyCore env dm pkv with
  | .error e => .error e
  | .ok core =>
      let planetId := dGet pkv "planet_id" .vNone
      let dkv := dictEntries (detailFor dm planetId)
      let uniq := dedupFirst core.2.2.2
      .ok
        { planet_id := planetId
        , planet_name := dGet dkv "_planet_name" (.vStr ("Planet " ++ pyStr planetId))
        , planet_type := dGet pkv "planet_type" .vNone
        , solar_system_id := dGet pkv "solar_system_id" .vNone
        , character := dGet dkv "_character_name" (.vStr "unknown")
        , extractors := core.1
        , storage_fill_pct := core.2.2.1
        , factories := core.2.1
        , needs_attention := !uniq.isEmpty
        , action_required := if uniq.isEmpty then "none" else String.intercalate "; " uniq }

/-- One iteration of the planets loop (lines 316-318): entries that
are not dicts are skipped and produce no record. -/
def processPlanet (env : Env) (dm : List (String × PyVal)) (planet : PyVal) :
    Except PyErr (Option PlanetRecord) :=
  match planet with
  | .vDict pkv => (processPlanetDict env dm pkv).map some
  | _ => .ok none

/-- The planets loop, collecting records in input order. -/
def planetsLoop (env : Env) (dm : List (String × PyVal)) :
    List PyVal → Except PyErr (List PlanetRecord)
  | [] => .ok []
  | p :: rest =>
      match processPlanet env dm p with
      | .error e => .error e
      | .ok r =>
          match planetsLoop env dm rest with
          | .error e => .error e
          | .ok rs =>
              match r with
              | some rcd => .ok (rcd :: rs)
              | none => .ok rs

/-- The `details_map` construction (lines 301-311): a dict keeps its
dict-valued entries under stringified keys; a list keeps its dict
items with a non-`None` `planet_id`, keyed by the stringified id, the
value being the `detail` entry when that is a dict and the item
itself otherwise; anything else yields the empty map. -/
def buildDetailsMap : PyVal → List (String × PyVal)
  | .vDict kvs =>
      kvs.filterMap (fun kv =>
        match kv.2 with
        | .vDict _ => some (pyStr kv.1, kv.2)
        | _ => none)
  | .vList items =>
      items.foldl (fun m item =>
        match item with
        | .vDict ikv =>
            let pid := dGet ikv "planet_id" .vNone
            let d0 := dGet ikv "detail" .vNone
            let detail := match d0 with
              | .vDict _ => d0
              | _ => item
            (match pid, detail with
             | .vNone, _ => m
             | _, .vDict _ => m ++ [ (pyStr pid, detail) ]
             | _, _ => m)
        | _ => m) []
  | _ => []

/-- Embedding of `parse_pi_status` (src/scripts/esi_query.py lines 299-406).  The
evaluation instant (line 313, `datetime.now`) is the explicit `env`
parameter. -/
def parse_pi_status (env : Env) (planets_data : List PyVal) (planet_details : PyVal) :
    Except PyErr (List PlanetRecord) :=
  planetsLoop env (buildDetailsMap planet_details) planets_data

/-! ## Auxiliary definitions for the totality analysis and for witness data -/

/-- Two storage pins at 90% and 50% fill, for the C4 witness. -/
def c4pins : List PyVal :=
  [ .vDict [ (.vStr "type_id", .vInt 2524)
           , (.vStr "contents", .vList [ .vDict [ (.vStr "amount", .vInt 9000) ] ]) ]
  , .vDict [ (.vStr "type_id", .vInt 2544)
           , (.vStr "contents", .vList [ .vDict [ (.vStr "amount", .vInt 5000) ] ]) ] ]

/-- Content entries with two malformed members, for the C8 witness. -/
def c8items : List PyVal :=
  [ .vDict [ (.vStr "amount", .vInt 9000) ]
  , .vStr "junk"
  , .vDict [ (.vStr "amount", .vStr "many") ] ]

/-- Storage-pin entry list holding `c8items`, for the C8 witness. -/
def c8kvs : List (PyVal × PyVal) :=
  [ (.vStr "type_id", .vInt 2524), (.vStr "contents", .vList c8items) ]

/-- Route 10 to 1 carrying 2393 (witness data for C6). -/
def c6routeA : PyVal :=
  .vDict [ (.vStr "source_pin_id", .vInt 10), (.vStr "destination_pin_id", .vInt 1)
         , (.vStr "content_type_id", .vInt 2393) ]

/-- Route 11 to 1 carrying 2396 (witness data for C6). -/
def c6routeB : PyVal :=
  .vDict [ (.vStr "source_pin_id", .vInt 11), (.vStr "destination_pin_id", .vInt 1)
         , (.vStr "content_type_id", .vInt 2396) ]

/-- Route 1 to 12 carrying 2389 (witness data for C6). -/
def c6routeC : PyVal :=
  .vDict [ (.vStr "source_pin_id", .vInt 1), (.vStr "destination_pin_id", .vInt 12)
         , (.vStr "content_type_id", .vInt 2389) ]

/-- A factory pin with id 1 (witness data for C6). -/
def c6pin : PyVal :=
  .vDict [ (.vStr "pin_id", .vInt 1), (.vStr "schematic_id", .vInt 5) ]

/-- Route into pin 1 carrying the boolean content type `True`
(counterexample data for C6). -/
def c6routeBool : PyVal :=
  .vDict [ (.vStr "destination_pin_id", .vInt 1)
         , (.vStr "content_type_id", .vBool true) ]

/-- Route into pin 1 carrying the integer content type `1`
(counterexample data for C6). -/
def c6routeOne : PyVal :=
  .vDict [ (.vStr "destination_pin_id", .vInt 1)
         , (.vStr "content_type_id", .vInt 1) ]

/-- Details map with two already-expired extractor pins (C5 witness
data): both pins produce the same attention message. -/
def c5dm : List (String × PyVal) :=
  [ ("1", .vDict [ (.vStr "pins", .vList
      [ .vDict [ (.vStr "extractor_details", .vDict [])
               , (.vStr "expiry_time", .vStr "1969-12-31T23:00:00Z") ]
      , .vDict [ (.vStr "extractor_details", .vDict [])
               , (.vStr "expiry_time", .vStr "1969-12-31T22:00:00Z") ] ]) ]) ]

/-- Planet entry with id 1 (C5 witness data). -/
def c5pkv : List (PyVal × PyVal) := [ (.vStr "planet_id", .vInt 1) ]

/-- The record the engine assembles for `c5dm`/`c5pkv` at epoch 0: the
duplicate "Extractor already expired" messages collapse to one. -/
def c5rec : PlanetRecord :=
  { planet_id := .vInt 1
  , planet_name := .vStr "Planet 1"
  , planet_type := .vNone
  , solar_system_id := .vNone
  , character := .vStr "unknown"
  , extractors :=
      [ { product := "unknown", product_type_id := .vNone
        , expiry := .vStr "1969-12-31T23:00:00Z"
        , hours_remaining := some (-100), status := "expired" }
      , { product := "unknown", product_type_id := .vNone
        , expiry := .vStr "1969-12-31T22:00:00Z"
        , hours_remaining := some (-200), status := "expired" } ]
  , storage_fill_pct := none
  , factories := []
  , needs_attention := true
  , action_required := "Extractor already expired" }

/-- The record the engine produces for a planet dict with no fields
and an empty details mapping (C10 witness data). -/
def c10rec : PlanetRecord :=
  { planet_id := .vNone
  , planet_name := .vStr "Planet None"
  , planet_type := .vNone
  , solar_system_id := .vNone
  , character := .vStr "unknown"
  , extractors := []
  , storage_fill_pct := none
  , factories := []
  , needs_attention := false
  , action_required := "none" }

/-- Case analysis of `classifyPin` on a successful extractor pin: the
produced entry and reason in terms of the timestamp parse result. -/
theorem classifyPin_cases (env : Env) (pkv : List (PyVal × PyVal))
    (e : ExtractorEntry) (r : Option String)
    (h : classifyPin env (PyVal.vDict pkv) = .ok (some (e, r))) :
    ∃ tOpt : Option Int,
      parse_utc_timestamp env (dGet pkv "expiry_time" .vNone) = .ok tOpt ∧
      ((tOpt = none ∧ e.hours_remaining = none ∧ e.status = "idle" ∧ r = none) ∨
       (∃ t : Int, tOpt = some t ∧
          e.hours_remaining = some (roundHalfEvenDiv (t - env.nowMicro) 36000000) ∧
          ((0 < roundHalfEvenDiv (t - env.nowMicro) 36000000 ∧
              e.status = "running" ∧
              r = (if roundHalfEvenDiv (t - env.nowMicro) 36000000 ≤ 600 then
                     some ("Extractor expires in " ++
                       floatStrCenti (roundHalfEvenDiv (t - env.nowMicro) 36000000) ++ "h")
                   else none)) ∨
           (roundHalfEvenDiv (t - env.nowMicro) 36000000 ≤ 0 ∧
              e.status = "expired" ∧
              r = some "Extractor already expired")))) := by
  simp only [classifyPin] at h
  split at h
  next ikv heq =>
    split at h
    next err herr => exact absurd h (by simp)
    next expiryDt hp =>
      split at h
      next err herr => exact absurd h (by simp)
      next pname hn =>
        simp only [Except.ok.injEq, Option.some.injEq, Prod.mk.injEq] at h
        obtain ⟨hE, hR⟩ := h
        subst hE
        subst hR
        refine ⟨expiryDt, hp, ?_⟩
        cases expiryDt with
        | none => exact Or.inl ⟨rfl, rfl, rfl, rfl⟩
        | some t =>
            refine Or.inr ⟨t, rfl, rfl, ?_⟩
            by_cases hpos : 0 < roundHalfEvenDiv (t - env.nowMicro) 36000000
            · refine Or.inl ⟨hpos, ?_, ?_⟩
              · show (if roundHalfEvenDiv (t - env.nowMicro) 36000000 > 0 then "running" else "expired") = "running"
                rw [if_pos hpos]
              · show (if (if roundHalfEvenDiv (t - env.nowMicro) 36000000 > 0 then "running" else "expired") = "expired" then some "Extractor already expired" else _) = _
                rw [if_pos hpos]
                simp
            · refine Or.inr ⟨by omega, ?_, ?_⟩
              · show (if roundHalfEvenDiv (t - env.nowMicro) 36000000 > 0 then "running" else "expired") = "expired"
                rw [if_neg hpos]
              · show (if (if roundHalfEvenDiv (t - env.nowMicro) 36000000 > 0 then "running" else "expired") = "expired" then some "Extractor already expired" else _) = _
                rw [if_neg hpos]
                simp
  next heq => exact absurd h (by simp)

/-- C3: an extractor entry contributes an attention reason if and only
if its state is `expired`, or its state is `running` and its remaining
time (in hundredths of an hour) is at most 600, the 6.0-hour boundary
included; `idle` entries never contribute one. -/
theorem c3_attention_iff (env : Env) (pkv : List (PyVal × PyVal))
    (e : ExtractorEntry) (r : Option String)
    (h : classifyPin env (PyVal.vDict pkv) = .ok (some (e, r))) :
    (r ≠ none ↔
      (e.status = "expired" ∨
        (e.status = "running" ∧ ∃ hrs : Int, e.hours_remaining = some hrs ∧ hrs ≤ 600)))
    ∧ (e.status = "idle" → r = none) := by
  obtain ⟨tOpt, hp, hcases⟩ := classifyPin_cases env pkv e r h
  rcases hcases with ⟨-, hhr, hst, hrr⟩ | ⟨t, -, hhr, hrun | hexp⟩
  · rw [hst, hrr]
    simp
  · obtain ⟨hpos, hst, hrr⟩ := hrun
    rw [hst, hrr, hhr]
    by_cases hle : roundHalfEvenDiv (t - env.nowMicro) 36000000 ≤ 600
    · rw [if_pos hle]
      simp [hle]
    · rw [if_neg hle]
      simp [hle]
  · obtain ⟨hneg, hst, hrr⟩ := hexp
    rw [hst, hrr]
    simp

/-- C7: an extractor entry's remaining time is the signed difference
between expiry and evaluation time in hours rounded to two decimals
(stored in hundredths), and it is `None` exactly when the state is
`idle`. -/
theorem c7_remaining_time (env : Env) (pkv : List (PyVal × PyVal))
    (e : ExtractorEntry) (r : Option String)
    (h : classifyPin env (PyVal.vDict pkv) = .ok (some (e, r))) :
    (e.hours_remaining = none ↔ e.status = "idle")
    ∧ (∀ t : Int,
        parse_utc_timestamp env (dGet pkv "expiry_time" .vNone) = .ok (some t) →
        e.hours_remaining = some (roundHalfEvenDiv (t - env.nowMicro) 36000000)) := by
  obtain ⟨tOpt, hp, hcases⟩ := classifyPin_cases env pkv e r h
  rcases hcases with ⟨htO, hhr, hst, -⟩ | ⟨t, htO, hhr, hrest⟩
  · subst htO
    refine ⟨by rw [hhr, hst]; simp, ?_⟩
    intro t hp2
    rw [hp] at hp2
    exact absurd hp2 (by simp)
  · subst htO
    constructor
    · rw [hhr]
      rcases hrest with ⟨-, hst, -⟩ | ⟨-, hst, -⟩ <;> rw [hst] <;> simp
    · intro t2 hp2
      rw [hp] at hp2
      simp only [Except.ok.injEq, Option.some.injEq] at hp2
      subst hp2
      exact hhr

/-- C1 (amended): among extractor entries, the state is `running`
exactly when the expiry parses and the remaining hours rounded to two
decimals are strictly positive, `expired` exactly when the expiry
parses and the rounded remaining hours are not positive, and `idle`
exactly when the expiry is absent, falsy or unparseable (`Z` being
accepted for `+00:00` by `parse_utc_timestamp`). -/
theorem c1_state_classification (env : Env) (pkv : List (PyVal × PyVal))
    (e : ExtractorEntry) (r : Option String)
    (h : classifyPin env (PyVal.vDict pkv) = .ok (some (e, r))) :
    (e.status = "running" ↔
      ∃ t : Int, parse_utc_timestamp env (dGet pkv "expiry_time" .vNone) = .ok (some t) ∧
        0 < roundHalfEvenDiv (t - env.nowMicro) 36000000)
    ∧ (e.status = "expired" ↔
      ∃ t : Int, parse_utc_timestamp env (dGet pkv "expiry_time" .vNone) = .ok (some t) ∧
        roundHalfEvenDiv (t - env.nowMicro) 36000000 ≤ 0)
    ∧ (e.status = "idle" ↔
      parse_utc_timestamp env (dGet pkv "expiry_time" .vNone) = .ok none) := by
  obtain ⟨tOpt, hp, hcases⟩ := classifyPin_cases env pkv e r h
  rcases hcases with ⟨htO, hhr, hst, -⟩ | ⟨t, htO, hhr, hrest⟩
  · subst htO
    rw [hst]
    refine ⟨?_, ?_, by simp [hp]⟩
    · constructor
      · intro hc
        exact absurd hc (by simp)
      · rintro ⟨t, hp2, -⟩
        rw [hp] at hp2
        exact absurd hp2 (by simp)
    · constructor
      · intro hc
        exact absurd hc (by simp)
      · rintro ⟨t, hp2, -⟩
        rw [hp] at hp2
        exact absurd hp2 (by simp)
  · subst htO
    have hnone : ¬ parse_utc_timestamp env (dGet pkv "expiry_time" .vNone) = .ok none := by
      rw [hp]
      simp
    rcases hrest with ⟨hpos, hst, -⟩ | ⟨hneg, hst, -⟩
    · rw [hst]
      refine ⟨by simp [hp, hpos], ?_, by simp [hnone]⟩
      constructor
      · intro hc
        exact absurd hc (by simp)
      · rintro ⟨t2, hp2, hle⟩
        rw [hp] at hp2
        simp only [Except.ok.injEq, Option.some.injEq] at hp2
        subst hp2
        omega
    · rw [hst]
      refine ⟨?_, by exact ⟨fun _ => ⟨t, hp, hneg⟩, fun _ => rfl⟩, by simp [hnone]⟩
      constructor
      · intro hc
        exact absurd hc (by simp)
      · rintro ⟨t2, hp2, hpos2⟩
        rw [hp] at hp2
        simp only [Except.ok.injEq, Option.some.injEq] at hp2
        subst hp2
        omega

/-- C1 counterexample: an expiry ten seconds in the future parses and
lies strictly in the future of the evaluation instant, yet the engine
classifies the extractor as `expired` (the rounded remaining hours are
zero), not `running` as the claim states. -/
theorem c1_counterexample :
    parse_utc_timestamp ⟨0, 0⟩ (.vStr "1970-01-01T00:00:10Z") = .ok (some 10000000)
    ∧ (0 : Int) < 10000000
    ∧ classifyPin ⟨0, 0⟩
        (.vDict [ (.vStr "extractor_details", .vDict [])
                , (.vStr "expiry_time", .vStr "1970-01-01T00:00:10Z") ]) =
      .ok (some ({ product := "unknown"
                 , product_type_id := .vNone
                 , expiry := .vStr "1970-01-01T00:00:10Z"
                 , hours_remaining := some 0
                 , status := "expired" }, some "Extractor already expired")) :=
  ⟨rfl, by decide, rfl⟩

/-- Witness for `c1_state_classification` at a pin with no expiry
field: its state is `idle`. -/
theorem c1_state_classification_witness :
    (("idle" : String) = "running" ↔
      ∃ t : Int, parse_utc_timestamp ⟨0, 0⟩ .vNone = .ok (some t) ∧
        0 < roundHalfEvenDiv (t - 0) 36000000)
    ∧ (("idle" : String) = "expired" ↔
      ∃ t : Int, parse_utc_timestamp ⟨0, 0⟩ .vNone = .ok (some t) ∧
        roundHalfEvenDiv (t - 0) 36000000 ≤ 0)
    ∧ (("idle" : String) = "idle" ↔ parse_utc_timestamp ⟨0, 0⟩ .vNone = .ok none) :=
  c1_state_classification ⟨0, 0⟩ [ (.vStr "extractor_details", .vDict []) ]
    { product := "unknown", product_type_id := .vNone, expiry := .vNone
    , hours_remaining := none, status := "idle" } none rfl

/-- Witness for `c3_attention_iff` at an extractor with exactly 6.00
remaining hours: the boundary triggers attention. -/
theorem c3_attention_iff_witness :
    ((some "Extractor expires in 6.0h" : Option String) ≠ none ↔
      (("running" : String) = "expired" ∨
        (("running" : String) = "running" ∧
          ∃ hrs : Int, (some 600 : Option Int) = some hrs ∧ hrs ≤ 600)))
    ∧ (("running" : String) = "idle" →
        (some "Extractor expires in 6.0h" : Option String) = none) :=
  c3_attention_iff ⟨0, 0⟩
    [ (.vStr "extractor_details", .vDict [ (.vStr "product_type_id", .vInt 2393) ])
    , (.vStr "expiry_time", .vStr "1970-01-01T06:00:00Z") ]
    { product := "Aqueous Liquids", product_type_id := .vInt 2393
    , expiry := .vStr "1970-01-01T06:00:00Z", hours_remaining := some 600
    , status := "running" }
    (some "Extractor expires in 6.0h") rfl

/-- Witness for `c7_remaining_time` at an extractor whose expiry lies
one hour in the past: remaining time is `-1.00` hours. -/
theorem c7_remaining_time_witness :
    ((some (-100) : Option Int) = none ↔ ("expired" : String) = "idle")
    ∧ (∀ t : Int,
        parse_utc_timestamp ⟨0, 0⟩ (.vStr "1969-12-31T23:00:00Z") = .ok (some t) →
        (some (-100) : Option Int) = some (roundHalfEvenDiv (t - 0) 36000000)) :=
  c7_remaining_time ⟨0, 0⟩
    [ (.vStr "extractor_details", .vDict [] )
    , (.vStr "expiry_time", .vStr "1969-12-31T23:00:00Z") ]
    { product := "unknown", product_type_id := .vNone
    , expiry := .vStr "1969-12-31T23:00:00Z", hours_remaining := some (-100)
    , status := "expired" }
    (some "Extractor already expired") rfl

/-! ## Storage fill: characterization lemmas -/

/-- Fold of the `total_amount` loop equals the sum of per-entry
contributions. -/
theorem sumAmountsMicro_eq_map_sum (items : List PyVal) :
    sumAmountsMicro items = (items.map entryAmountMicro).sum := by
  have haux : ∀ (l : List PyVal) (a : Int),
      l.foldl (fun t it => t + entryAmountMicro it) a = a + (l.map entryAmountMicro).sum := by
    intro l
    induction l with
    | nil => intro a; simp
    | cons x xs ih =>
        intro a
        simp only [List.foldl_cons, List.map_cons, List.sum_cons, ih]
        ring
  simpa using haux items 0

/-- Per-pin fill values never exceed 100% (10000 hundredths). -/
theorem pinFill_le_10000 (pin : PyVal) (g : Int)
    (h : pinFill pin = .ok (some g)) : g ≤ 10000 := by
  unfold pinFill at h
  split at h
  next kvs =>
    split at h
    next err herr => exact absurd h (by simp)
    next c hc =>
      split at h
      next hc0 => exact absurd h (by simp)
      next hc0 =>
        split at h
        next items hl =>
          simp only [Except.ok.injEq, Option.some.injEq] at h
          subst h
          exact min_le_left _ _
        next hl => exact absurd h (by simp)
    next hc => exact absurd h (by simp)
  next => exact absurd h (by simp)

/-- Inversion of a successful per-pin fill: the pin is a dict whose
type has a nonzero capacity, its contents (after `or []`) are a list,
and the value is the clamped rounded ratio. -/
theorem pinFill_some_inv (pin : PyVal) (g : Int)
    (h : pinFill pin = .ok (some g)) :
    ∃ kvs c items, pin = PyVal.vDict kvs ∧
      capacityGet (dGet kvs "type_id" .vNone) = .ok (some c) ∧ c ≠ 0 ∧
      (if truthy (dGet kvs "contents" .vNone) then dGet kvs "contents" .vNone
       else .vList []) = .vList items ∧
      g = min 10000 (roundHalfEvenDiv (sumAmountsMicro items) (c * 100)) := by
  unfold pinFill at h
  split at h
  next kvs =>
    split at h
    next err herr => exact absurd h (by simp)
    next c hc =>
      split at h
      next hc0 => exact absurd h (by simp)
      next hc0 =>
        split at h
        next items hl =>
          simp only [Except.ok.injEq, Option.some.injEq] at h
          exact ⟨kvs, c, items, rfl, hc, hc0, hl, h.symm⟩
        next hl => exact absurd h (by simp)
    next hc => exact absurd h (by simp)
  next => exact absurd h (by simp)

/-- The storage fold yields `None` exactly when the accumulator is
empty and every pin is skipped. -/
theorem storageFold_ok_none (pins : List PyVal) :
    ∀ (acc r : Option Int), storageFold pins acc = .ok r →
      (r = none ↔ (acc = none ∧ ∀ pin ∈ pins, pinFill pin = .ok none)) := by
  induction pins with
  | nil =>
      intro acc r h
      simp only [storageFold, Except.ok.injEq] at h
      subst h
      simp
  | cons pin rest ih =>
      intro acc r h
      simp only [storageFold] at h
      split at h
      next err herr => exact absurd h (by simp)
      next fill hfill =>
        have hmem := ih (accMax fill acc) r h
        rw [hmem]
        constructor
        · rintro ⟨hc, -⟩
          cases acc <;> simp [accMax] at hc
        · rintro ⟨-, hall⟩
          have := hall pin (List.mem_cons_self pin rest)
          rw [hfill] at this
          exact absurd this (by simp)
      next hfill =>
        rw [ih acc r h]
        constructor
        · rintro ⟨hacc, hall⟩
          refine ⟨hacc, ?_⟩
          intro p hp
          rcases List.mem_cons.mp hp with hp | hp
          · subst hp; exact hfill
          · exact hall p hp
        · rintro ⟨hacc, hall⟩
          exact ⟨hacc, fun p hp => hall p (List.mem_cons_of_mem pin hp)⟩

/-- The two bounds of the `max_fill` update. -/
theorem accMax_bounds (fill : Int) (acc : Option Int) :
    (∀ g, accMax fill acc = some g →
      fill ≤ g ∧ (∀ m, acc = some m → m ≤ g) ∧ (g = fill ∨ acc = some g)) := by
  intro g hg
  cases acc with
  | none =>
      simp only [accMax, Option.some.injEq] at hg
      subst hg
      refine ⟨le_refl _, ?_, Or.inl rfl⟩
      intro m hm
      exact absurd hm (by simp)
  | some m =>
      simp only [accMax, Option.some.injEq] at hg
      by_cases hgt : fill > m
      · rw [if_pos hgt] at hg
        subst hg
        exact ⟨le_refl _, by intro m2 hm2; cases hm2; omega, Or.inl rfl⟩
      · rw [if_neg hgt] at hg
        subst hg
        exact ⟨by omega, by intro m2 hm2; cases hm2; omega, Or.inr rfl⟩

/-- The storage fold's non-`None` result is an upper bound of the
accumulator and of every per-pin fill value, and is attained by one of
them. -/
theorem storageFold_ok_some (pins : List PyVal) :
    ∀ (acc : Option Int) (f : Int), storageFold pins acc = .ok (some f) →
      ((acc = some f ∨ ∃ pin ∈ pins, pinFill pin = .ok (some f))
       ∧ (∀ g, acc = some g → g ≤ f)
       ∧ (∀ pin ∈ pins, ∀ g, pinFill pin = .ok (some g) → g ≤ f)) := by
  induction pins with
  | nil =>
      intro acc f h
      simp only [storageFold, Except.ok.injEq] at h
      subst h
      refine ⟨Or.inl rfl, ?_, ?_⟩
      · intro g hg
        cases hg
        exact le_refl f
      · intro p hp
        exact absurd hp (by simp)
  | cons pin rest ih =>
      intro acc f h
      simp only [storageFold] at h
      split at h
      next err herr => exact absurd h (by simp)
      next fill hfill =>
        obtain ⟨hat, hup, hrest⟩ := ih (accMax fill acc) f h
        have hself : ∀ g, accMax fill acc = some g → fill ≤ f ∧ ∀ m, acc = some m → m ≤ f := by
          intro g hg
          obtain ⟨h1, h2, -⟩ := accMax_bounds fill acc g hg
          have := hup g hg
          exact ⟨by omega, fun m hm => by have := h2 m hm; omega⟩
        have hex : ∃ g, accMax fill acc = some g := by
          cases acc with
          | none => exact ⟨fill, rfl⟩
          | some m => exact ⟨if fill > m then fill else m, rfl⟩
        obtain ⟨g0, hg0⟩ := hex
        obtain ⟨hfl, hacc⟩ := hself g0 hg0
        refine ⟨?_, fun g hg => hacc g hg, ?_⟩
        · rcases hat with hat | ⟨p, hp, hpf⟩
          · obtain ⟨-, -, hattain⟩ := accMax_bounds fill acc f hat
            rcases hattain with hattain | hattain
            · refine Or.inr ⟨pin, List.mem_cons_self pin rest, ?_⟩
              rw [hfill, hattain]
            · exact Or.inl hattain
          · exact Or.inr ⟨p, List.mem_cons_of_mem pin hp, hpf⟩
        · intro p hp g hg
          rcases List.mem_cons.mp hp with hp | hp
          · subst hp
            rw [hfill] at hg
            simp only [Except.ok.injEq, Option.some.injEq] at hg
            omega
          · exact hrest p hp g hg
      next hfill =>
        obtain ⟨hat, hup, hrest⟩ := ih acc f h
        refine ⟨?_, hup, ?_⟩
        · rcases hat with hat | ⟨p, hp, hpf⟩
          · exact Or.inl hat
          · exact Or.inr ⟨p, List.mem_cons_of_mem pin hp, hpf⟩
        · intro p hp g hg
          rcases List.mem_cons.mp hp with hp | hp
          · subst hp
            rw [hfill] at hg
            exact absurd hg (by simp)
          · exact hrest p hp g hg

/-- C4 (amended): the colony fill is `None` exactly when every pin is
skipped by the estimator (no nonzero capacity for its type, or a
truthy non-list `contents`); otherwise it is the maximum of the
per-pin values, each the ratio rounded to two decimals and clamped at
100% (10000 hundredths), so it never exceeds 100%; the storage
attention message fires exactly for a fill of at least 80% (8000). -/
theorem c4_storage_fill (pins : List PyVal) (r : Option Int)
    (h : estimate_storage_fill_pct pins = .ok r) :
    (r = none ↔ ∀ pin ∈ pins, pinFill pin = .ok none)
    ∧ (∀ f, r = some f →
        ((∃ pin ∈ pins, pinFill pin = .ok (some f))
         ∧ (∀ pin ∈ pins, ∀ g, pinFill pin = .ok (some g) → g ≤ f)
         ∧ f ≤ 10000))
    ∧ (∀ pin g, pinFill pin = .ok (some g) →
        ∃ kvs c items, pin = PyVal.vDict kvs ∧
          capacityGet (dGet kvs "type_id" .vNone) = .ok (some c) ∧ c ≠ 0 ∧
          (if truthy (dGet kvs "contents" .vNone) then dGet kvs "contents" .vNone
           else .vList []) = .vList items ∧
          g = min 10000 (roundHalfEvenDiv (sumAmountsMicro items) (c * 100)))
    ∧ (∀ fOpt, storageReason fOpt ≠ [] ↔ ∃ f, fOpt = some f ∧ 8000 ≤ f) := by
  refine ⟨?_, ?_, ?_, ?_⟩
  · rw [storageFold_ok_none pins none r h]
    simp
  · intro f hf
    subst hf
    obtain ⟨hat, -, hub⟩ := storageFold_ok_some pins none f h
    rcases hat with hat | hat
    · exact absurd hat (by simp)
    · obtain ⟨p, hp, hpf⟩ := hat
      exact ⟨⟨p, hp, hpf⟩, hub, pinFill_le_10000 p f hpf⟩
  · intro pin g hg
    exact pinFill_some_inv pin g hg
  · intro fOpt
    cases fOpt with
    | none => simp [storageReason]
    | some f =>
        simp only [storageReason]
        by_cases hf : f ≥ 8000
        · rw [if_pos hf]
          simp [hf]
        · rw [if_neg hf]
          simp [hf]

/-- C4 counterexample: this pin's type 2524 is in the capacity table,
yet the colony fill is `None`, because the pin's `contents` is a
truthy non-list and the estimator skips the pin wholesale — the claim
says `None` happens exactly when no pin's type is in the table. -/
theorem c4_counterexample :
    capacityGet (.vInt 2524) = .ok (some 10000)
    ∧ estimate_storage_fill_pct
        [ .vDict [ (.vStr "type_id", .vInt 2524)
                 , (.vStr "contents", .vDict [ (.vStr "a", .vInt 1) ]) ] ] = .ok none :=
  ⟨rfl, rfl⟩

/-- Witness for `c4_storage_fill` on a colony holding a 90%-full and a
50%-full storage pin: the reported fill is the maximum, 90%. -/
theorem c4_storage_fill_witness :
    ((some 9000 : Option Int) = none ↔ ∀ pin ∈ c4pins, pinFill pin = .ok none)
    ∧ (∀ f, (some 9000 : Option Int) = some f →
        ((∃ pin ∈ c4pins, pinFill pin = .ok (some f))
         ∧ (∀ pin ∈ c4pins, ∀ g, pinFill pin = .ok (some g) → g ≤ f)
         ∧ f ≤ 10000))
    ∧ (∀ pin g, pinFill pin = .ok (some g) →
        ∃ kvs c items, pin = PyVal.vDict kvs ∧
          capacityGet (dGet kvs "type_id" .vNone) = .ok (some c) ∧ c ≠ 0 ∧
          (if truthy (dGet kvs "contents" .vNone) then dGet kvs "contents" .vNone
           else .vList []) = .vList items ∧
          g = min 10000 (roundHalfEvenDiv (sumAmountsMicro items) (c * 100)))
    ∧ (∀ fOpt, storageReason fOpt ≠ [] ↔ ∃ f, fOpt = some f ∧ 8000 ≤ f) :=
  c4_storage_fill c4pins (some 9000) rfl

/-- C8 counterexample: a pin of capacity-table type 2524 whose
`contents` is a truthy non-list yields no fill ratio at all — the pin
is skipped rather than summed — contradicting the claim that every
capacity-eligible pin still yields a fill ratio. -/
theorem c8_counterexample :
    capacityGet (.vInt 2524) = .ok (some 10000)
    ∧ pinFill (.vDict [ (.vStr "type_id", .vInt 2524)
                      , (.vStr "contents", .vStr "full") ]) = .ok none
    ∧ estimate_storage_fill_pct
        [ .vDict [ (.vStr "type_id", .vInt 2524)
                 , (.vStr "contents", .vStr "full") ] ] = .ok none :=
  ⟨rfl, rfl, rfl⟩

/-- C8 (amended): an eligible pin whose `contents` (after `or []`) is
a list always yields a fill ratio; the sum ranges over all entries of
that list, and a malformed entry — not a dict, or with a non-numeric
`amount` — contributes zero instead of aborting the sum. -/
theorem c8_entry_tolerance (kvs : List (PyVal × PyVal)) (c : Int) (items : List PyVal)
    (hc : capacityGet (dGet kvs "type_id" .vNone) = .ok (some c))
    (hc0 : c ≠ 0)
    (hl : (if truthy (dGet kvs "contents" .vNone) then dGet kvs "contents" .vNone
           else .vList []) = .vList items) :
    pinFill (.vDict kvs) =
      .ok (some (min 10000 (roundHalfEvenDiv (sumAmountsMicro items) (c * 100))))
    ∧ sumAmountsMicro items = (items.map entryAmountMicro).sum
    ∧ (∀ it ∈ items, (∀ ikv, it ≠ PyVal.vDict ikv) → entryAmountMicro it = 0)
    ∧ (∀ ikv, PyVal.vDict ikv ∈ items →
        numMicro (dGet ikv "amount" .vNone) = none →
        entryAmountMicro (PyVal.vDict ikv) = 0) := by
  refine ⟨?_, sumAmountsMicro_eq_map_sum items, ?_, ?_⟩
  · simp [pinFill, hc, hc0, hl]
  · intro it hit hnd
    cases it with
    | vDict ikv => exact absurd rfl (hnd ikv)
    | vNone => rfl
    | vBool b => rfl
    | vInt n => rfl
    | vFloat m => rfl
    | vStr s => rfl
    | vList xs => rfl
  · intro ikv hmem hnone
    simp [entryAmountMicro, hnone]

/-- Witness for `c8_entry_tolerance` on a pin with one well-formed and
two malformed content entries: the pin still yields a fill ratio and
the malformed entries contribute zero. -/
theorem c8_entry_tolerance_witness :
    pinFill (.vDict c8kvs) =
      .ok (some (min 10000 (roundHalfEvenDiv (sumAmountsMicro c8items) (10000 * 100))))
    ∧ sumAmountsMicro c8items = (c8items.map entryAmountMicro).sum
    ∧ (∀ it ∈ c8items, (∀ ikv, it ≠ PyVal.vDict ikv) → entryAmountMicro it = 0)
    ∧ (∀ ikv, PyVal.vDict ikv ∈ c8items →
        numMicro (dGet ikv "amount" .vNone) = none →
        entryAmountMicro (PyVal.vDict ikv) = 0) :=
  c8_entry_tolerance c8kvs 10000 c8items rfl (by decide) rfl

/-! ## Route aggregation: order-invariance and determinism lemmas -/

/-- Membership in the de-duplication worker: seen elements are
dropped. -/
theorem mem_dedupFirstAux {α : Type} [DecidableEq α] (l : List α) :
    ∀ (seen : List α) (x : α), x ∈ dedupFirstAux seen l ↔ (x ∈ l ∧ x ∉ seen) := by
  induction l with
  | nil => intro seen x; simp [dedupFirstAux]
  | cons y ys ih =>
      intro seen x
      by_cases hy : y ∈ seen
      · rw [dedupFirstAux, if_pos hy, ih seen x]
        constructor
        · rintro ⟨hx, hns⟩
          exact ⟨List.mem_cons_of_mem y hx, hns⟩
        · rintro ⟨hx, hns⟩
          rcases List.mem_cons.mp hx with hx | hx
          · subst hx; exact absurd hy hns
          · exact ⟨hx, hns⟩
      · rw [dedupFirstAux, if_neg hy]
        constructor
        · intro hx
          rcases List.mem_cons.mp hx with hx | hx
          · subst hx; exact ⟨List.mem_cons_self _ _, hy⟩
          · obtain ⟨h1, h2⟩ := (ih (y :: seen) x).mp hx
            refine ⟨List.mem_cons_of_mem y h1, ?_⟩
            intro hc
            exact h2 (List.mem_cons_of_mem y hc)
        · rintro ⟨hx, hns⟩
          by_cases hxy : x = y
          · subst hxy; exact List.mem_cons_self x _
          · rcases List.mem_cons.mp hx with hx | hx
            · exact absurd hx hxy
            · refine List.mem_cons_of_mem y ((ih (y :: seen) x).mpr ⟨hx, ?_⟩)
              intro hc
              rcases List.mem_cons.mp hc with hc | hc
              · exact hxy hc
              · exact hns hc

/-- The de-duplication worker yields a list without duplicates. -/
theorem nodup_dedupFirstAux {α : Type} [DecidableEq α] (l : List α) :
    ∀ seen : List α, (dedupFirstAux seen l).Nodup := by
  induction l with
  | nil => intro seen; simp [dedupFirstAux]
  | cons y ys ih =>
      intro seen
      by_cases hy : y ∈ seen
      · rw [dedupFirstAux, if_pos hy]; exact ih seen
      · rw [dedupFirstAux, if_neg hy]
        refine List.nodup_cons.mpr ⟨?_, ih (y :: seen)⟩
        intro hc
        exact ((mem_dedupFirstAux ys (y :: seen) y).mp hc).2 (List.mem_cons_self y seen)

/-- Membership is preserved by `dedupFirst`. -/
theorem mem_dedupFirst {α : Type} [DecidableEq α] (l : List α) (x : α) :
    x ∈ dedupFirst l ↔ x ∈ l := by
  rw [dedupFirst, mem_dedupFirstAux]
  simp

/-- Lists produced by `dedupFirst` have no duplicates. -/
theorem nodup_dedupFirst {α : Type} [DecidableEq α] (l : List α) :
    (dedupFirst l).Nodup :=
  nodup_dedupFirstAux l []

/-- Python `sorted(set(l))` is sorted ascending. -/
theorem sortedDedup_sorted (l : List Int) : (sortedDedup l).Sorted (· ≤ ·) :=
  List.sorted_insertionSort _ _

/-- Python `sorted(set(l))` has no duplicates. -/
theorem sortedDedup_nodup (l : List Int) : (sortedDedup l).Nodup :=
  (List.perm_insertionSort _ _).symm.nodup (nodup_dedupFirst l)

/-- Python `sorted(set(l))` preserves membership. -/
theorem mem_sortedDedup (l : List Int) (x : Int) : x ∈ sortedDedup l ↔ x ∈ l := by
  rw [sortedDedup, (List.perm_insertionSort _ _).mem_iff, mem_dedupFirst]

/-- Python `sorted(set(l))` depends only on the multiset of `l`. -/
theorem sortedDedup_perm_congr {l1 l2 : List Int} (h : l1.Perm l2) :
    sortedDedup l1 = sortedDedup l2 := by
  refine List.eq_of_perm_of_sorted ?_ (sortedDedup_sorted l1) (sortedDedup_sorted l2)
  have hd : (dedupFirst l1).Perm (dedupFirst l2) := by
    refine (List.perm_ext_iff_of_nodup (nodup_dedupFirst l1) (nodup_dedupFirst l2)).2 ?_
    intro a
    rw [mem_dedupFirst, mem_dedupFirst, h.mem_iff]
  exact (List.perm_insertionSort _ _).trans (hd.trans (List.perm_insertionSort _ _).symm)

/-- Characterization of the pair a route contributes to the outgoing
map: the key is the numeric source pin, the value the original
content-type value (an `int` or `bool`). -/
theorem routeOut_eq_some (r : PyVal) (p : Int) (v : PyVal) :
    routeOut r = some (p, v) ↔
      ∃ rkv, r = PyVal.vDict rkv ∧
        pyToInt (dGet rkv "source_pin_id" .vNone) = some p ∧
        dGet rkv "content_type_id" .vNone = v ∧ pyToInt v ≠ none := by
  cases r with
  | vDict rkv =>
      cases ha : pyToInt (dGet rkv "source_pin_id" .vNone) with
      | none => simp [routeOut, ha]
      | some p2 =>
          cases hb : pyToInt (dGet rkv "content_type_id" .vNone) with
          | none =>
              simp [routeOut, ha, hb]
              intro _ hv
              rw [← hv]
              exact hb
          | some c2 =>
              constructor
              · intro h
                simp only [routeOut, ha, hb] at h
                simp only [Option.some.injEq, Prod.mk.injEq] at h
                obtain ⟨hp, hv⟩ := h
                subst hp
                refine ⟨rkv, rfl, ha, hv, ?_⟩
                rw [← hv, hb]
                simp
              · rintro ⟨rkv2, heq, hpp, hvv, -⟩
                injection heq with hk
                subst hk
                rw [ha] at hpp
                simp only [Option.some.injEq] at hpp
                subst hpp
                simp only [routeOut, ha, hb]
                rw [hvv]
  | vNone => simp [routeOut]
  | vBool b => simp [routeOut]
  | vInt n => simp [routeOut]
  | vFloat m => simp [routeOut]
  | vStr s => simp [routeOut]
  | vList xs => simp [routeOut]

/-- Characterization of the pair a route contributes to the incoming
map (symmetric to `routeOut_eq_some`). -/
theorem routeIn_eq_some (r : PyVal) (p : Int) (v : PyVal) :
    routeIn r = some (p, v) ↔
      ∃ rkv, r = PyVal.vDict rkv ∧
        pyToInt (dGet rkv "destination_pin_id" .vNone) = some p ∧
        dGet rkv "content_type_id" .vNone = v ∧ pyToInt v ≠ none := by
  cases r with
  | vDict rkv =>
      cases ha : pyToInt (dGet rkv "destination_pin_id" .vNone) with
      | none => simp [routeIn, ha]
      | some p2 =>
          cases hb : pyToInt (dGet rkv "content_type_id" .vNone) with
          | none =>
              simp [routeIn, ha, hb]
              intro _ hv
              rw [← hv]
              exact hb
          | some c2 =>
              constructor
              · intro h
                simp only [routeIn, ha, hb] at h
                simp only [Option.some.injEq, Prod.mk.injEq] at h
                obtain ⟨hp, hv⟩ := h
                subst hp
                refine ⟨rkv, rfl, ha, hv, ?_⟩
                rw [← hv, hb]
                simp
              · rintro ⟨rkv2, heq, hpp, hvv, -⟩
                injection heq with hk
                subst hk
                rw [ha] at hpp
                simp only [Option.some.injEq] at hpp
                subst hpp
                simp only [routeIn, ha, hb]
                rw [hvv]
  | vNone => simp [routeIn]
  | vBool b => simp [routeIn]
  | vInt n => simp [routeIn]
  | vFloat m => simp [routeIn]
  | vStr s => simp [routeIn]
  | vList xs => simp [routeIn]

/-- The per-pin view of an aggregation dict depends only on the
multiset of contributed pairs. -/
theorem pairsFor_perm {pairs1 pairs2 : List (Int × PyVal)} (h : pairs1.Perm pairs2)
    (p : Int) : (pairsFor pairs1 p).Perm (pairsFor pairs2 p) :=
  (h.filter _).map _

/-- Values of the per-pin view come from the contributed pairs. -/
theorem mem_pairsFor (pairs : List (Int × PyVal)) (p : Int) (v : PyVal)
    (h : v ∈ pairsFor pairs p) : ∃ pr ∈ pairs, pr.2 = v := by
  simp only [pairsFor, List.mem_map, List.mem_filter] at h
  obtain ⟨pr, ⟨hmem, -⟩, hv⟩ := h
  exact ⟨pr, hmem, hv⟩

/-- Members of the numeric de-duplication worker come from the input
and carry numbers outside the seen set. -/
theorem mem_dedupByNumAux (l : List PyVal) :
    ∀ (seen : List Int) (v : PyVal),
      v ∈ dedupByNumAux seen l → v ∈ l ∧ numOf v ∉ seen := by
  induction l with
  | nil => intro seen v h; simp [dedupByNumAux] at h
  | cons w ws ih =>
      intro seen v h
      by_cases hw : numOf w ∈ seen
      · rw [dedupByNumAux, if_pos hw] at h
        obtain ⟨h1, h2⟩ := ih seen v h
        exact ⟨List.mem_cons_of_mem w h1, h2⟩
      · rw [dedupByNumAux, if_neg hw] at h
        rcases List.mem_cons.mp h with h | h
        · subst h
          exact ⟨List.mem_cons_self _ _, hw⟩
        · obtain ⟨h1, h2⟩ := ih (numOf w :: seen) v h
          exact ⟨List.mem_cons_of_mem w h1, fun hc => h2 (List.mem_cons_of_mem _ hc)⟩

/-- The numeric de-duplication worker keeps at most one value per
numeric class. -/
theorem pairwise_dedupByNumAux (l : List PyVal) :
    ∀ seen : List Int,
      (dedupByNumAux seen l).Pairwise (fun a b => numOf a ≠ numOf b) := by
  induction l with
  | nil => intro seen; simp [dedupByNumAux]
  | cons w ws ih =>
      intro seen
      by_cases hw : numOf w ∈ seen
      · rw [dedupByNumAux, if_pos hw]
        exact ih seen
      · rw [dedupByNumAux, if_neg hw]
        refine List.Pairwise.cons ?_ (ih (numOf w :: seen))
        intro v hv hc
        exact (mem_dedupByNumAux ws (numOf w :: seen) v hv).2
          (by rw [← hc]; exact List.mem_cons_self _ _)

/-- Every input value has a representative of its numeric class in the
worker's output, unless its number was already seen. -/
theorem cover_dedupByNumAux (l : List PyVal) :
    ∀ (seen : List Int) (v : PyVal), v ∈ l → numOf v ∉ seen →
      ∃ w ∈ dedupByNumAux seen l, numOf w = numOf v := by
  induction l with
  | nil => intro seen v h; exact absurd h (by simp)
  | cons w ws ih =>
      intro seen v hv hns
      by_cases hw : numOf w ∈ seen
      · rw [dedupByNumAux, if_pos hw]
        rcases List.mem_cons.mp hv with hv | hv
        · subst hv; exact absurd hw hns
        · exact ih seen v hv hns
      · rw [dedupByNumAux, if_neg hw]
        by_cases hnum : numOf v = numOf w
        · exact ⟨w, List.mem_cons_self _ _, hnum.symm⟩
        · rcases List.mem_cons.mp hv with hv | hv
          · subst hv; exact absurd rfl hnum
          · have hns2 : numOf v ∉ numOf w :: seen := by
              intro hc
              rcases List.mem_cons.mp hc with hc | hc
              · exact hnum hc
              · exact hns hc
            obtain ⟨u, hu, hunum⟩ := ih (numOf w :: seen) v hv hns2
            exact ⟨u, List.mem_cons_of_mem w hu, hunum⟩

/-- Python `sorted(set(l))` on `int`/`bool` values is sorted by
numeric value. -/
theorem sortedSetVals_sorted (l : List PyVal) :
    (sortedSetVals l).Sorted (fun a b => numOf a ≤ numOf b) :=
  List.sorted_insertionSort _ _

/-- Python `sorted(set(l))` on `int`/`bool` values holds pairwise
distinct numeric values. -/
theorem sortedSetVals_pairwise (l : List PyVal) :
    (sortedSetVals l).Pairwise (fun a b => numOf a ≠ numOf b) := by
  exact (List.Perm.pairwise_iff (fun h hc => h hc.symm)
    (List.perm_insertionSort _ _)).mpr (pairwise_dedupByNumAux l [])

/-- Python `sorted(set(l))` only returns values of `l`. -/
theorem mem_sortedSetVals (l : List PyVal) (v : PyVal)
    (h : v ∈ sortedSetVals l) : v ∈ l :=
  (mem_dedupByNumAux l [] v ((List.perm_insertionSort _ _).mem_iff.mp h)).1

/-- Python `sorted(set(l))` covers every numeric class of `l`. -/
theorem cover_sortedSetVals (l : List PyVal) (v : PyVal) (h : v ∈ l) :
    ∃ w ∈ sortedSetVals l, numOf w = numOf v := by
  obtain ⟨w, hw, hnum⟩ := cover_dedupByNumAux l [] v h (by simp)
  exact ⟨w, (List.perm_insertionSort _ _).mem_iff.mpr hw, hnum⟩

/-- A list of proper `int` values is the `vInt` image of its numbers. -/
theorem listVIntRep (l : List PyVal) (hv : ∀ v ∈ l, isVInt v = true) :
    l = (l.map numOf).map PyVal.vInt := by
  induction l with
  | nil => rfl
  | cons w ws ih =>
      have hw := hv w (List.mem_cons_self _ _)
      have ih2 := ih (fun v hvm => hv v (List.mem_cons_of_mem _ hvm))
      cases w with
      | vInt n =>
          show PyVal.vInt n :: ws = PyVal.vInt n :: (ws.map numOf).map PyVal.vInt
          rw [← ih2]
      | vNone => exact absurd hw (by simp [isVInt])
      | vBool b => exact absurd hw (by simp [isVInt])
      | vFloat m => exact absurd hw (by simp [isVInt])
      | vStr s => exact absurd hw (by simp [isVInt])
      | vList xs => exact absurd hw (by simp [isVInt])
      | vDict kvs => exact absurd hw (by simp [isVInt])

/-- On `vInt` images, the numeric de-duplication is the integer
de-duplication. -/
theorem dedupByNum_map_vInt (nums : List Int) :
    ∀ seen : List Int,
      dedupByNumAux seen (nums.map PyVal.vInt) =
        (dedupFirstAux seen nums).map PyVal.vInt := by
  induction nums with
  | nil => intro seen; rfl
  | cons n ns ih =>
      intro seen
      simp only [List.map_cons, dedupByNumAux, dedupFirstAux]
      by_cases h : n ∈ seen
      · rw [if_pos (show numOf (PyVal.vInt n) ∈ seen from h), if_pos h]
        exact ih seen
      · rw [if_neg (show numOf (PyVal.vInt n) ∉ seen from h), if_neg h]
        simp only [List.map_cons]
        rw [ih (numOf (PyVal.vInt n) :: seen)]
        rfl

/-- On `vInt` images, the numeric ordered insert is the integer
ordered insert. -/
theorem orderedInsertNum_map (n : Int) :
    ∀ nums : List Int,
      List.orderedInsert (fun a b => numOf a ≤ numOf b) (PyVal.vInt n) (nums.map PyVal.vInt) =
        (List.orderedInsert (· ≤ ·) n nums).map PyVal.vInt := by
  intro nums
  induction nums with
  | nil => rfl
  | cons m ms ih =>
      simp only [List.map_cons, List.orderedInsert]
      by_cases h : n ≤ m
      · rw [if_pos (show numOf (PyVal.vInt n) ≤ numOf (PyVal.vInt m) from h), if_pos h]
        rfl
      · rw [if_neg (show ¬ numOf (PyVal.vInt n) ≤ numOf (PyVal.vInt m) from h), if_neg h]
        simp only [List.map_cons]
        rw [ih]

/-- On `vInt` images, the numeric insertion sort is the integer
insertion sort. -/
theorem insertionSortNum_map (nums : List Int) :
    List.insertionSort (fun a b => numOf a ≤ numOf b) (nums.map PyVal.vInt) =
      (List.insertionSort (· ≤ ·) nums).map PyVal.vInt := by
  induction nums with
  | nil => rfl
  | cons n ns ih =>
      simp only [List.map_cons, List.insertionSort]
      rw [ih, orderedInsertNum_map]

/-- On `vInt` images, `sorted(set(…))` is the integer `sorted(set(…))`
transported by `vInt`. -/
theorem sortedSetVals_map_vInt (nums : List Int) :
    sortedSetVals (nums.map PyVal.vInt) = (sortedDedup nums).map PyVal.vInt := by
  unfold sortedSetVals sortedDedup dedupFirst
  rw [dedupByNum_map_vInt, insertionSortNum_map]

/-- Python `sorted(set(l))` is permutation-invariant on lists of
proper `int` values (with `bool`s present it is not: the set keeps the
first-inserted of two hash-equal values). -/
theorem sortedSetVals_perm_congr {l1 l2 : List PyVal} (h : l1.Perm l2)
    (hv : ∀ v ∈ l1, isVInt v = true) :
    sortedSetVals l1 = sortedSetVals l2 := by
  have hv2 : ∀ v ∈ l2, isVInt v = true := fun v hm => hv v (h.mem_iff.mpr hm)
  rw [listVIntRep l1 hv, listVIntRep l2 hv2, sortedSetVals_map_vInt,
    sortedSetVals_map_vInt, sortedDedup_perm_congr (h.map numOf)]

/-- A factory entry is invariant under permutation of the route list
when every included content-type value is a proper `int`. -/
theorem factoryEntryOf_perm_of_vint {routes1 routes2 : List PyVal}
    (h : routes1.Perm routes2)
    (hv : ((inPairs routes1 ++ outPairs routes1).all (fun pr => isVInt pr.2)) = true)
    (pkv : List (PyVal × PyVal)) (p : Int) :
    factoryEntryOf (inPairs routes1) (outPairs routes1) pkv p =
      factoryEntryOf (inPairs routes2) (outPairs routes2) pkv p := by
  rw [List.all_eq_true] at hv
  have hin : ∀ v ∈ pairsFor (inPairs routes1) p, isVInt v = true := by
    intro v hvm
    obtain ⟨pr, hpr, hpv⟩ := mem_pairsFor _ p v hvm
    rw [← hpv]
    exact hv pr (List.mem_append.mpr (Or.inl hpr))
  have hout : ∀ v ∈ pairsFor (outPairs routes1) p, isVInt v = true := by
    intro v hvm
    obtain ⟨pr, hpr, hpv⟩ := mem_pairsFor _ p v hvm
    rw [← hpv]
    exact hv pr (List.mem_append.mpr (Or.inr hpr))
  have e1 : sortedSetVals (pairsFor (inPairs routes1) p) =
      sortedSetVals (pairsFor (inPairs routes2) p) :=
    sortedSetVals_perm_congr (pairsFor_perm (h.filterMap routeIn) p) hin
  have e2 : sortedSetVals (pairsFor (outPairs routes1) p) =
      sortedSetVals (pairsFor (outPairs routes2) p) :=
    sortedSetVals_perm_congr (pairsFor_perm (h.filterMap routeOut) p) hout
  unfold factoryEntryOf
  rw [e1, e2]

/-- The factory list is invariant under permutation of the route list
when every included content-type value is a proper `int`. -/
theorem factoryLoop_perm_of_vint {routes1 routes2 : List PyVal}
    (h : routes1.Perm routes2)
    (hv : ((inPairs routes1 ++ outPairs routes1).all (fun pr => isVInt pr.2)) = true)
    (pins : List PyVal) :
    factoryLoop (inPairs routes1) (outPairs routes1) pins =
      factoryLoop (inPairs routes2) (outPairs routes2) pins := by
  induction pins with
  | nil => rfl
  | cons pin rest ih =>
      cases pin with
      | vDict pkv =>
          simp only [factoryLoop]
          rw [ih]
          by_cases hk : (hasKey pkv "factory_details" || hasKey pkv "schematic_id") = true
          · rw [if_pos hk, if_pos hk]
            cases pyToInt (dGet pkv "pin_id" .vNone) with
            | none => rfl
            | some p =>
                exact congrArg
                  (fun fe => fe :: factoryLoop (inPairs routes2) (outPairs routes2) rest)
                  (factoryEntryOf_perm_of_vint h hv pkv p)
          · rw [if_neg hk, if_neg hk]
      | vNone => simp only [factoryLoop]; exact ih
      | vBool b => simp only [factoryLoop]; exact ih
      | vInt n => simp only [factoryLoop]; exact ih
      | vFloat m => simp only [factoryLoop]; exact ih
      | vStr s => simp only [factoryLoop]; exact ih
      | vList xs => simp only [factoryLoop]; exact ih

/-- C6 (amended): a route contributes to the outgoing map under its
numeric source pin exactly when both the source pin id and the content
type id satisfy `isinstance(…, int)` (so booleans qualify, hash-equal
to `0`/`1`), and independently and symmetrically for the incoming map
under its destination pin; the factory list is invariant under
permutation of the route list provided the included content-type
values are proper `int`s (with a mixed hash-equal `bool`/`int` pair
the retained set representative, hence the rendered label, depends on
route order — `c6_counterexample`); and each rendered set is the
numerically sorted, numerically duplicate-free list of the contributed
values, covering each contributed numeric class. -/
theorem c6_route_aggregation :
    (∀ (routes : List PyVal) (p : Int) (v : PyVal),
       (((p, v) ∈ outPairs routes ↔ ∃ rt ∈ routes, ∃ rkv, rt = PyVal.vDict rkv ∧
          pyToInt (dGet rkv "source_pin_id" .vNone) = some p ∧
          dGet rkv "content_type_id" .vNone = v ∧ pyToInt v ≠ none)
        ∧ ((p, v) ∈ inPairs routes ↔ ∃ rt ∈ routes, ∃ rkv, rt = PyVal.vDict rkv ∧
          pyToInt (dGet rkv "destination_pin_id" .vNone) = some p ∧
          dGet rkv "content_type_id" .vNone = v ∧ pyToInt v ≠ none)))
    ∧ (∀ (routes1 routes2 pins : List PyVal), routes1.Perm routes2 →
        ((inPairs routes1 ++ outPairs routes1).all (fun pr => isVInt pr.2)) = true →
        factoryLoop (inPairs routes1) (outPairs routes1) pins =
          factoryLoop (inPairs routes2) (outPairs routes2) pins)
    ∧ (∀ l : List PyVal,
        (sortedSetVals l).Sorted (fun a b => numOf a ≤ numOf b)
        ∧ (sortedSetVals l).Pairwise (fun a b => numOf a ≠ numOf b)
        ∧ (∀ v ∈ sortedSetVals l, v ∈ l)
        ∧ (∀ v ∈ l, ∃ w ∈ sortedSetVals l, numOf w = numOf v)) := by
  refine ⟨?_, ?_, ?_⟩
  · intro routes p v
    constructor
    · simp only [outPairs, List.mem_filterMap, routeOut_eq_some]
    · simp only [inPairs, List.mem_filterMap, routeIn_eq_some]
  · intro routes1 routes2 pins h hv
    exact factoryLoop_perm_of_vint h hv pins
  · intro l
    exact ⟨sortedSetVals_sorted l, sortedSetVals_pairwise l,
      fun v hv => mem_sortedSetVals l v hv, fun v hv => cover_sortedSetVals l v hv⟩

/-- C6 counterexample: two routes into the same factory pin carrying
the hash-equal content types `True` and `1` — Python's
`sorted(set(…))` keeps the first-inserted of the two, so swapping the
routes changes the rendered input label from `type_id:True` to
`type_id:1`, refuting permutation invariance of the rendered sets. -/
theorem c6_counterexample :
    List.Perm [ c6routeBool, c6routeOne ] [ c6routeOne, c6routeBool ]
    ∧ factoryLoop (inPairs [ c6routeBool, c6routeOne ])
        (outPairs [ c6routeBool, c6routeOne ]) [ c6pin ] =
        [ { input := "type_id:True", output := "unknown", schematic := "Schematic 5" } ]
    ∧ factoryLoop (inPairs [ c6routeOne, c6routeBool ])
        (outPairs [ c6routeOne, c6routeBool ]) [ c6pin ] =
        [ { input := "type_id:1", output := "unknown", schematic := "Schematic 5" } ]
    ∧ ("type_id:True" : String) ≠ "type_id:1" :=
  ⟨List.Perm.swap c6routeOne c6routeBool [], rfl, rfl, by decide⟩

/-- Witness for `c6_route_aggregation`: swapping the first two routes
(all content types proper ints) leaves the rendered factory list
unchanged. -/
theorem c6_route_aggregation_witness :
    factoryLoop (inPairs [ c6routeB, c6routeA, c6routeC ])
        (outPairs [ c6routeB, c6routeA, c6routeC ]) [ c6pin ] =
      factoryLoop (inPairs [ c6routeA, c6routeB, c6routeC ])
        (outPairs [ c6routeA, c6routeB, c6routeC ]) [ c6pin ] :=
  c6_route_aggregation.2.1 [ c6routeB, c6routeA, c6routeC ]
    [ c6routeA, c6routeB, c6routeC ] [ c6pin ]
    (List.Perm.swap c6routeA c6routeB [ c6routeC ]) (by decide)

/-! ## Record assembly: reason consolidation -/

/-- The de-duplicated list is a subsequence of the original (first
occurrences survive in their original relative order). -/
theorem dedupFirstAux_sublist {α : Type} [DecidableEq α] (l : List α) :
    ∀ seen : List α, (dedupFirstAux seen l).Sublist l := by
  induction l with
  | nil => intro seen; simp [dedupFirstAux]
  | cons y ys ih =>
      intro seen
      by_cases hy : y ∈ seen
      · rw [dedupFirstAux, if_pos hy]
        exact (ih seen).cons y
      · rw [dedupFirstAux, if_neg hy]
        exact (ih (y :: seen)).cons₂ y

/-- Inversion of a successful `colonyCore` run. -/
theorem colonyCore_ok_inv (env : Env) (dm : List (String × PyVal))
    (pkv : List (PyVal × PyVal))
    (ex : List ExtractorEntry) (fa : List FactoryEntry)
    (fi : Option Int) (rs : List String)
    (h : colonyCore env dm pkv = .ok (ex, fa, fi, rs)) :
    ∃ pinList routeList extrs,
      pyIter (pinsOf dm pkv) = .ok pinList ∧
      extractorLoop env pinList = .ok extrs ∧
      pyIter (routesOf dm pkv) = .ok routeList ∧
      estimate_storage_fill_pct pinList = .ok fi ∧
      ex = extrs.1 ∧
      fa = factoryLoop (inPairs routeList) (outPairs routeList) pinList ∧
      rs = extrs.2 ++ storageReason fi := by
  unfold colonyCore at h
  split at h
  next err herr => exact absurd h (by simp)
  next pinList hpl =>
    split at h
    next err herr => exact absurd h (by simp)
    next extras hel =>
      split at h
      next err herr => exact absurd h (by simp)
      next routeList hrl =>
        split at h
        next err herr => exact absurd h (by simp)
        next fill hfill =>
          simp only [Except.ok.injEq, Prod.mk.injEq] at h
          obtain ⟨h1, h2, h3, h4⟩ := h
          subst h1
          subst h2
          subst h3
          subst h4
          exact ⟨pinList, routeList, extras, hpl, hel, hrl, hfill, rfl, rfl, rfl⟩

/-- Boolean emptiness test versus propositional non-emptiness. -/
theorem bnot_isEmpty_iff {α : Type} (l : List α) : (!l.isEmpty) = true ↔ l ≠ [] := by
  cases l <;> simp

/-- C5: for every assembled record, the attention reasons are the
extractor messages in pin order followed by the storage message when
triggered; `needs_attention` is true iff their first-occurrence
de-duplication is non-empty; `action_required` is its `"; "` join, or
`"none"` when empty; and the de-duplicated list is duplicate-free, a
subsequence of the collected reasons, and retains exactly their
members. -/
theorem c5_reason_consolidation (env : Env) (dm : List (String × PyVal))
    (pkv : List (PyVal × PyVal)) (rec : PlanetRecord)
    (h : processPlanet env dm (.vDict pkv) = .ok (some rec)) :
    ∃ pinList routeList extrs fill,
      pyIter (pinsOf dm pkv) = .ok pinList ∧
      extractorLoop env pinList = .ok extrs ∧
      pyIter (routesOf dm pkv) = .ok routeList ∧
      estimate_storage_fill_pct pinList = .ok fill ∧
      rec.needs_attention = !(dedupFirst (extrs.2 ++ storageReason fill)).isEmpty ∧
      rec.action_required =
        (if (dedupFirst (extrs.2 ++ storageReason fill)).isEmpty then "none"
         else String.intercalate "; " (dedupFirst (extrs.2 ++ storageReason fill))) ∧
      (rec.needs_attention = true ↔ dedupFirst (extrs.2 ++ storageReason fill) ≠ []) ∧
      (dedupFirst (extrs.2 ++ storageReason fill)).Nodup ∧
      (dedupFirst (extrs.2 ++ storageReason fill)).Sublist (extrs.2 ++ storageReason fill) ∧
      (∀ s, s ∈ dedupFirst (extrs.2 ++ storageReason fill) ↔
        s ∈ extrs.2 ++ storageReason fill) := by
  simp only [processPlanet] at h
  cases hpd : processPlanetDict env dm pkv with
  | error e => rw [hpd] at h; exact absurd h (by simp [Except.map])
  | ok r0 =>
      rw [hpd] at h
      simp only [Except.map, Except.ok.injEq, Option.some.injEq] at h
      subst h
      unfold processPlanetDict at hpd
      split at hpd
      next err herr => exact absurd hpd (by simp)
      next core hcc =>
        obtain ⟨pinList, routeList, extrs, hpl, hel, hrl, hfill, -, -, hrs⟩ :=
          colonyCore_ok_inv env dm pkv core.1 core.2.1 core.2.2.1 core.2.2.2 hcc
        simp only [Except.ok.injEq] at hpd
        subst hpd
        refine ⟨pinList, routeList, extrs, core.2.2.1, hpl, hel, hrl, hfill, ?_, ?_, ?_, ?_, ?_, ?_⟩
        · rw [← hrs]
        · rw [← hrs]
        · rw [← hrs]
          exact bnot_isEmpty_iff _
        · rw [← hrs]
          exact nodup_dedupFirst _
        · rw [← hrs]
          exact dedupFirstAux_sublist _ _
        · intro s
          rw [← hrs]
          exact mem_dedupFirst _ s

/-- Witness for `c5_reason_consolidation` on a colony with two expired
extractors: the duplicated message appears once in the join. -/
theorem c5_reason_consolidation_witness :
    ∃ pinList routeList extrs fill,
      pyIter (pinsOf c5dm c5pkv) = .ok pinList ∧
      extractorLoop ⟨0, 0⟩ pinList = .ok extrs ∧
      pyIter (routesOf c5dm c5pkv) = .ok routeList ∧
      estimate_storage_fill_pct pinList = .ok fill ∧
      c5rec.needs_attention = !(dedupFirst (extrs.2 ++ storageReason fill)).isEmpty ∧
      c5rec.action_required =
        (if (dedupFirst (extrs.2 ++ storageReason fill)).isEmpty then "none"
         else String.intercalate "; " (dedupFirst (extrs.2 ++ storageReason fill))) ∧
      (c5rec.needs_attention = true ↔ dedupFirst (extrs.2 ++ storageReason fill) ≠ []) ∧
      (dedupFirst (extrs.2 ++ storageReason fill)).Nodup ∧
      (dedupFirst (extrs.2 ++ storageReason fill)).Sublist (extrs.2 ++ storageReason fill) ∧
      (∀ s, s ∈ dedupFirst (extrs.2 ++ storageReason fill) ↔
        s ∈ extrs.2 ++ storageReason fill) :=
  c5_reason_consolidation ⟨0, 0⟩ c5dm c5pkv c5rec rfl

/-! ## Missing planet id and evaluation-time dependence -/

/-- C10 (amended): a planet dict without a `planet_id` still produces
a record; its id field is `None`, its detail is looked up under the
string key `"None"`, and its display name is the synthetic
`"Planet None"` label unless that detail supplies a `_planet_name`,
which then takes precedence. -/
theorem c10_missing_planet_id (env : Env) (details : PyVal)
    (pkv : List (PyVal × PyVal)) (rec : PlanetRecord)
    (hid : dGet pkv "planet_id" .vNone = .vNone)
    (h : processPlanet env (buildDetailsMap details) (.vDict pkv) = .ok (some rec)) :
    rec.planet_id = .vNone
    ∧ rec.planet_name =
        dGet (dictEntries (detailFor (buildDetailsMap details) PyVal.vNone)) "_planet_name"
          (.vStr "Planet None")
    ∧ detailFor (buildDetailsMap details) PyVal.vNone =
        (match lookupStr (buildDetailsMap details) "None" with
         | some d => d
         | none => .vDict []) := by
  simp only [processPlanet] at h
  cases hpd : processPlanetDict env (buildDetailsMap details) pkv with
  | error e => rw [hpd] at h; exact absurd h (by simp [Except.map])
  | ok r0 =>
      rw [hpd] at h
      simp only [Except.map, Except.ok.injEq, Option.some.injEq] at h
      subst h
      unfold processPlanetDict at hpd
      split at hpd
      next err herr => exact absurd hpd (by simp)
      next core hcc =>
        simp only [Except.ok.injEq] at hpd
        subst hpd
        refine ⟨hid, ?_, rfl⟩
        rw [hid]
        rfl

/-- C10 counterexample: for a planet entry without `planet_id`, when
the details mapping binds the string key `"None"` to a detail carrying
a `_planet_name`, the record's display name is that name, not the
synthetic `"Planet None"` label the claim states. -/
theorem c10_counterexample :
    parse_pi_status ⟨0, 0⟩ [ .vDict [] ]
        (.vDict [ (.vStr "None", .vDict [ (.vStr "_planet_name", .vStr "Override") ]) ]) =
      .ok [ { planet_id := .vNone
            , planet_name := .vStr "Override"
            , planet_type := .vNone
            , solar_system_id := .vNone
            , character := .vStr "unknown"
            , extractors := []
            , storage_fill_pct := none
            , factories := []
            , needs_attention := false
            , action_required := "none" } ]
    ∧ PyVal.vStr "Override" ≠ PyVal.vStr "Planet None" :=
  ⟨rfl, by intro hc; injection hc with hs; exact absurd hs (by decide)⟩

/-- Witness for `c10_missing_planet_id` on an empty planet dict with
no matching detail: the synthetic `"Planet None"` label is used. -/
theorem c10_missing_planet_id_witness :
    c10rec.planet_id = .vNone
    ∧ c10rec.planet_name =
        dGet (dictEntries (detailFor (buildDetailsMap (.vDict [])) PyVal.vNone)) "_planet_name"
          (.vStr "Planet None")
    ∧ detailFor (buildDetailsMap (.vDict [])) PyVal.vNone =
        (match lookupStr (buildDetailsMap (.vDict [])) "None" with
         | some d => d
         | none => .vDict []) :=
  c10_missing_planet_id ⟨0, 0⟩ (.vDict []) [] c10rec rfl rfl

/-- C9 counterexample: identical `planets`/`details` arguments, two
invocation instants two hours apart: the extractor flips from
`running` to `expired`, so the records differ — the engine depends on
the clock read at line 313, which is outside its arguments. -/
theorem c9_counterexample :
    (parse_pi_status ⟨0, 0⟩
        [ .vDict [ (.vStr "planet_id", .vInt 1) ] ]
        (.vDict [ (.vStr "1", .vDict [ (.vStr "pins", .vList
          [ .vDict [ (.vStr "extractor_details", .vDict [])
                   , (.vStr "expiry_time", .vStr "1970-01-01T01:00:00Z") ] ]) ]) ])).map
        (fun rs => rs.map (fun r => r.extractors.map (fun e => e.status)))
      = .ok [ [ "running" ] ]
    ∧ (parse_pi_status ⟨7200000000, 0⟩
        [ .vDict [ (.vStr "planet_id", .vInt 1) ] ]
        (.vDict [ (.vStr "1", .vDict [ (.vStr "pins", .vList
          [ .vDict [ (.vStr "extractor_details", .vDict [])
                   , (.vStr "expiry_time", .vStr "1970-01-01T01:00:00Z") ] ]) ]) ])).map
        (fun rs => rs.map (fun r => r.extractors.map (fun e => e.status)))
      = .ok [ [ "expired" ] ]
    ∧ ("running" : String) ≠ "expired" :=
  ⟨rfl, rfl, by decide⟩

/-- C9 (amended): the engine is a pure function of its arguments and
the evaluation instant (with the local-offset parameter for naive
timestamps): invocations agreeing on all of these produce identical
record sequences.  In this embedding the clock read is the explicit
`Env` argument, so purity in the remaining arguments is definitional;
the refutation of clock-independence is `c9_counterexample`. -/
theorem c9_determinism (env1 env2 : Env) (planets1 planets2 : List PyVal)
    (details1 details2 : PyVal)
    (henv : env1 = env2) (hp : planets1 = planets2) (hd : details1 = details2) :
    parse_pi_status env1 planets1 details1 = parse_pi_status env2 planets2 details2 := by
  subst henv
  subst hp
  subst hd
  rfl

/-- Witness for `c9_determinism` at concrete equal arguments. -/
theorem c9_determinism_witness :
    parse_pi_status ⟨0, 0⟩ [] .vNone = parse_pi_status ⟨0, 0⟩ [] .vNone :=
  c9_determinism ⟨0, 0⟩ ⟨0, 0⟩ [] [] .vNone .vNone rfl rfl rfl

/-! ## Totality of the engine -/

